import Mathlib

/-!
Verification of the batch-subprocess protocol layer of git-annex-adapter
(`git_annex_adapter/process.py` and `git_annex_adapter/repo.py`).

The Python classes are shallowly embedded as Lean structures and pure
functions.  Each queue is represented by its current contents together with
the liveness of its worker thread; Python exceptions become an explicit
`PyErr` sum returned through `Except`.  The embedded functions follow the
Python sources line by line; places where an external collaborator (the
spawned child process) has to be modelled from the specification are marked
in their doc comments.
-/

namespace GitAnnexAdapter

/-- Python exception values that the embedded code can raise.  Constructors
are named after the Python exception classes raised in
`git_annex_adapter/process.py`; `notAGitRepoError` is the distinguished
`NotAGitRepoError` from `git_annex_adapter.exceptions`. -/
inductive PyErr where
  | timeoutError (msg : String)
  | brokenPipeError (msg : String)
  | emptyError
  | nameError
  | fileNotFoundError (strerror : String)
  | calledProcessError (returncode : Int) (stdout stderr : String)
  | notAGitRepoError (msg : String)
  | valueError (msg : String)
  | typeError (msg : String)
  | jsonDecodeError
  deriving DecidableEq, Repr

/-- Python's `needle in hay` substring test on strings. -/
def pyIn (needle hay : String) : Bool :=
  decide (needle.toList <:+: hay.toList)

/-- Result of `subprocess.run`: a `subprocess.CompletedProcess`. -/
structure CompletedProcess where
  returncode : Int
  stdout : String
  stderr : String
  deriving DecidableEq, Repr

/-- Embeds `GitAnnexRunner.__call__` (process.py lines 592-610).  The result
of the underlying `subprocess.run` (or the exception it raised) is passed in
as `outcome`; the function re-raises a `FileNotFoundError` whose `strerror`
contains `"No such file or directory:"` and a `CalledProcessError` whose
`stderr` contains `"git-annex: Not in a git repository"` as
`NotAGitRepoError`, and propagates everything else unchanged. -/
def runnerCall (workdir : String) (outcome : Except PyErr CompletedProcess) :
    Except PyErr CompletedProcess :=
  match outcome with
  | .error (.fileNotFoundError strerror) =>
      if pyIn "No such file or directory:" strerror then
        .error (.notAGitRepoError ("Path '" ++ workdir ++ "' does not exist."))
      else
        .error (.fileNotFoundError strerror)
  | .error (.calledProcessError rc out err) =>
      if pyIn "git-annex: Not in a git repository" err then
        .error (.notAGitRepoError
          ("Path '" ++ workdir ++ "' is not in a git repository."))
      else
        .error (.calledProcessError rc out err)
  | r => r

/-- Python's `'{}'.format(version)` for the optional version argument of
`GitAnnexInitRunner.__call__` (`None` prints as `"None"`). -/
def formatVersion : Option String → String
  | some v => v
  | none => "None"

/-- Embeds `GitAnnexInitRunner.__call__` (process.py lines 618-643).  It
first runs the `GitAnnexRunner` classification (the `super().__call__`),
then re-raises a remaining `CalledProcessError` whose stderr contains
`"option --version:"` as the distinguished invalid-version error — in the
source a Python `ValueError` (the specification calls it
`InvalidVersionError`) carrying the rejected version in its message.
`NotAGitRepoError` and all other exceptions propagate unchanged. -/
def initRunnerCall (workdir : String) (version : Option String)
    (outcome : Except PyErr CompletedProcess) : Except PyErr CompletedProcess :=
  match runnerCall workdir outcome with
  | .error (.calledProcessError rc out err) =>
      if pyIn "option --version:" err then
        .error (.valueError
          ("Repository version '" ++ formatVersion version ++ "' is invalid."))
      else
        .error (.calledProcessError rc out err)
  | r => r

/-! ### Line queues and the `Process` class

A `queue.Queue` is embedded as the list of items it currently holds, in FIFO
order, together with the liveness of its dedicated worker thread.  An item
`none` is the sentinel: for a reader queue it is the EOF marker the reader
thread enqueues last before dying, for a writer queue it is the poison pill
that makes the writer thread close stdin and terminate.  An empty queue
means no item is available within the caller's timeout, so a (non-)blocking
`get` raises `queue.Empty` there; states where a line arrives later are
represented by queues that already hold that line. -/

/-- Embeds `LineReaderQueue` (process.py lines 30-81): the queue contents
plus whether the reader thread is still alive. -/
structure LineReaderQueue where
  items : List (Option String)
  alive : Bool
  deriving DecidableEq, Repr

/-- Embeds `LineReaderQueue.get` (process.py lines 54-74).  If the reader
thread is dead and the queue is empty it raises `BrokenPipeError`; otherwise
it dequeues the front item, and after dequeuing the `None` sentinel it joins
the (now certainly dead) reader thread. -/
def LineReaderQueue.get (q : LineReaderQueue) :
    Except PyErr (Option String × LineReaderQueue) :=
  if !q.alive && q.items.isEmpty then
    .error (.brokenPipeError "Reader thread is dead.")
  else
    match q.items with
    | [] => .error .emptyError
    | some l :: rest => .ok (some l, ⟨rest, q.alive⟩)
    | none :: rest => .ok (none, ⟨rest, false⟩)

/-- Embeds `LineWriterQueue` (process.py lines 84-132): the not yet flushed
queue contents plus whether the writer thread is still alive. -/
structure LineWriterQueue where
  items : List (Option String)
  alive : Bool
  deriving DecidableEq, Repr

/-- Embeds `LineWriterQueue.put` (process.py lines 107-125).  If the writer
thread is dead it raises `BrokenPipeError` regardless of the arguments,
without enqueuing anything; otherwise the item is appended to the queue. -/
def LineWriterQueue.put (q : LineWriterQueue) (item : Option String) :
    Except PyErr LineWriterQueue :=
  if !q.alive then
    .error (.brokenPipeError "Writer thread is dead.")
  else
    .ok ⟨q.items ++ [item], q.alive⟩

/-- Embeds the inherited `queue.Queue.get` that `Process.readline` reaches
when called with `source='stdin'`: `LineWriterQueue` does not override
`get`, so the base class dequeues the front item with no thread-liveness
check, raising `queue.Empty` when nothing is available. -/
def LineWriterQueue.queueGet (q : LineWriterQueue) :
    Except PyErr (Option String × LineWriterQueue) :=
  match q.items with
  | [] => .error .emptyError
  | item :: rest => .ok (item, ⟨rest, q.alive⟩)

/-- Embeds a `Process` object (process.py lines 135-338): its three stream
queues, the exit code `poll()` reports (`none` while running), and — for the
batch-mode claims — the child process itself, modelled from the spec as a
well-behaved batch program: `childF` maps each request line to its single
response line, and `consumed` records the stdin lines the child has read so
far, in order.  The child is an external program (git-annex), not code of
this repository, so only this spec-level model of it is available. -/
structure Process where
  args : String
  stdinQ : LineWriterQueue
  stdoutQ : LineReaderQueue
  stderrQ : LineReaderQueue
  poll : Option Int
  childF : String → String
  consumed : List String

/-- Embeds `Process.writeline` (process.py lines 174-186): put the line on
the stdin queue, re-raising a dead-writer `BrokenPipeError` with a message
naming the command. -/
def Process.writeline (p : Process) (line : Option String) :
    Except PyErr Process :=
  match p.stdinQ.put line with
  | .ok q => .ok { p with stdinQ := q }
  | .error (.brokenPipeError _) =>
      .error (.brokenPipeError
        ("Writer thread for stdin of command " ++ p.args ++ " is dead."))
  | .error e => .error e

/-- Embeds `Process.writelines` (process.py lines 188-195): `writeline` for
each line of the list in order. -/
def Process.writelines (p : Process) (lines : List String) :
    Except PyErr Process :=
  match lines with
  | [] => .ok p
  | l :: rest => do Process.writelines (← p.writeline (some l)) rest

/-- Embeds `Process.readline` (process.py lines 197-229).  The three valid
sources select their queue; `queue.Empty` becomes `TimeoutError` and a dead
reader becomes `BrokenPipeError`, both with messages naming the source.  Any
other source string leaves the local variable `q` unassigned, so Python
raises `UnboundLocalError` (a `NameError`) at `q.get`. -/
def Process.readline (p : Process) (source : String) :
    Except PyErr (Option String × Process) :=
  let remap : Except PyErr (Option String × Process) →
      Except PyErr (Option String × Process) := fun r =>
    match r with
    | .error .emptyError =>
        .error (.timeoutError
          (source ++ " of command " ++ p.args ++ " timed out"))
    | .error (.brokenPipeError _) =>
        .error (.brokenPipeError
          ("Reader thread for " ++ source ++ " of command " ++ p.args ++
            " is dead."))
    | r => r
  if source = "stdout" then
    remap ((p.stdoutQ.get).map fun (l, q) => (l, { p with stdoutQ := q }))
  else if source = "stderr" then
    remap ((p.stderrQ.get).map fun (l, q) => (l, { p with stderrQ := q }))
  else if source = "stdin" then
    remap ((p.stdinQ.queueGet).map fun (l, q) => (l, { p with stdinQ := q }))
  else
    .error .nameError

/-- Embeds the loop of `Process.readlines` (process.py lines 231-257):
`itertools.islice(iter(readline, None), count)` with `TimeoutError` and
`BrokenPipeError` caught and swallowed.  `remaining` is the count still to
read (`none` for unlimited); `fuel` only drives the recursion and is chosen
large enough by `Process.readlines`. -/
def Process.readlinesGo (fuel : Nat) (remaining : Option Nat) (p : Process)
    (source : String) : Except PyErr (List String × Process) :=
  match fuel with
  | 0 => .ok ([], p)
  | fuel + 1 =>
    if remaining = some 0 then .ok ([], p)
    else
      match p.readline source with
      | .ok (some l, p') => do
          let (ls, p'') ← Process.readlinesGo fuel
            (remaining.map fun n => n - 1) p' source
          .ok (l :: ls, p'')
      | .ok (none, p') => .ok ([], p')
      | .error (.timeoutError _) => .ok ([], p)
      | .error (.brokenPipeError _) => .ok ([], p)
      | .error e => .error e

/-- Embeds `Process.readlines` (process.py lines 231-257): reads at most
`count` lines (`none` meaning unlimited) from the source, returning the
lines collected before a timeout, the EOF sentinel, or a dead reader ended
the loop.  One fuel unit is spent per successful `readline`, and each
successful `readline` removes one item from the source's queue, so the total
queue size plus one bounds the loop. -/
def Process.readlines (p : Process) (source : String) (count : Option Nat) :
    Except PyErr (List String × Process) :=
  Process.readlinesGo
    (p.stdinQ.items.length + p.stdoutQ.items.length +
      p.stderrQ.items.length + 1)
    count p source

/-- The queue items of the stream a `readline` source string selects
(spec-side helper for stating properties of `Process.readlines`). -/
def Process.sourceItems (p : Process) (source : String) :
    List (Option String) :=
  if source = "stdout" then p.stdoutQ.items
  else if source = "stderr" then p.stderrQ.items
  else p.stdinQ.items

/-- The lines available on a queue before its first sentinel or its end:
what a drain loop can collect (spec-side helper). -/
def collectedLines (items : List (Option String)) : List String :=
  (items.takeWhile Option.isSome).reduceOption

/-- Truncation of a line list by an optional count, `none` meaning
unlimited (spec-side helper mirroring `itertools.islice`). -/
def truncCount (count : Option Nat) (ls : List String) : List String :=
  match count with
  | none => ls
  | some c => ls.take c

/-- A concrete `Process` value for counterexamples and witnesses: the given
three queues, a live child echoing its input, nothing consumed yet. -/
def mkProc (si : LineWriterQueue) (so se : LineReaderQueue) : Process :=
  ⟨"('git', 'annex', 'metadata', '--batch', '--json')", si, so, se, none,
    fun s => s, []⟩

/-- A process whose stdout queue holds exactly the EOF sentinel: its source
is exhausted and the reader thread is about to die. -/
def procAtEof : Process := mkProc ⟨[], true⟩ ⟨[none], true⟩ ⟨[], true⟩

/-- The process state after `procAtEof` has consumed the sentinel. -/
def procPastEof : Process :=
  { procAtEof with stdoutQ := ⟨[], false⟩ }

/-- A process whose stdin writer thread has already terminated. -/
def procDeadWriter : Process :=
  mkProc ⟨[], false⟩ ⟨[], true⟩ ⟨[], true⟩

/-- A process with two stdout lines queued, used for `readlines` claims. -/
def procTwoLines : Process :=
  mkProc ⟨[], true⟩ ⟨[some "a", some "b", none], true⟩ ⟨[], true⟩

/-! ### The JSON layer

`JsonProcess` delegates to Python's `json` module.  JSON values are embedded
as the inductive `Json`; a Python value returned by `json.loads` (dict,
list, str, int, bool, `None`) is represented by the same type, with `.null`
standing for Python `None`.  Two representational limits of the model, both
irrelevant to the batch protocol's request/response objects: JSON numbers
are modelled as integers (Python floats are not representable here, so
number tokens with a fraction or exponent, and `NaN`/`Infinity`, parse to
failure), and strings containing lone surrogates (which CPython's decoder
can produce from unpaired `\uDC00`-style escapes) are not representable, so
such escapes also parse to failure.  `json.dumps` is embedded with its
default options: separators `", "` and `": "`, `ensure_ascii=True`
(non-ASCII characters become `\uXXXX` escapes, astral characters a
surrogate pair), `sort_keys=False` (member order preserved). -/

/-- A JSON value; also the model of the Python values `json.loads` returns
(`.null` is Python `None`, objects are dicts in insertion order). -/
inductive Json where
  | null
  | bool (b : Bool)
  | num (n : Int)
  | str (s : String)
  | arr (elems : List Json)
  | obj (members : List (String × Json))

/-- JSON whitespace, as in Python's `json.decoder.WHITESPACE`. -/
def jsonWs (c : Char) : Bool :=
  c = ' ' || c = '\t' || c = '\n' || c = '\r'

/-- Skip JSON whitespace. -/
def skipWs : List Char → List Char
  | c :: cs => if jsonWs c then skipWs cs else c :: cs
  | [] => []

/-- An ASCII decimal digit. -/
def isDigitCh (c : Char) : Bool :=
  '0' ≤ c && c ≤ '9'

/-- The character for a decimal digit value. -/
def digitChar (d : Nat) : Char :=
  Char.ofNat (48 + d)

/-- The decimal digit characters of a natural number, most significant
first, as Python's `repr` prints it. -/
def natDecChars (n : Nat) : List Char :=
  if n = 0 then ['0'] else ((Nat.digits 10 n).map digitChar).reverse

/-- The characters of a Python integer literal: optional minus sign, then
decimal digits. -/
def intChars (i : Int) : List Char :=
  if i < 0 then '-' :: natDecChars i.natAbs else natDecChars i.natAbs

/-- A lowercase hexadecimal digit character, as Python's `'{0:04x}'`. -/
def hexDigitChar (d : Nat) : Char :=
  if d < 10 then Char.ofNat (48 + d) else Char.ofNat (87 + d)

/-- Four hexadecimal digit characters of a value below `0x10000`. -/
def hex4Chars (n : Nat) : List Char :=
  [hexDigitChar (n / 4096 % 16), hexDigitChar (n / 256 % 16),
    hexDigitChar (n / 16 % 16), hexDigitChar (n % 16)]

/-- Embeds the per-character escaping of `json.encoder.py_encode_basestring_ascii`:
backslash, quote and the five shorthand control characters use two-character
escapes, other characters outside `0x20..0x7e` become `\uXXXX` escapes
(astral characters a surrogate pair), and printable ASCII passes through. -/
def escChar (c : Char) : List Char :=
  if c = '\\' then ['\\', '\\']
  else if c = '"' then ['\\', '"']
  else if c = '\n' then ['\\', 'n']
  else if c = '\r' then ['\\', 'r']
  else if c = '\t' then ['\\', 't']
  else if c = Char.ofNat 8 then ['\\', 'b']
  else if c = Char.ofNat 12 then ['\\', 'f']
  else if c.toNat < 0x20 || 0x7f ≤ c.toNat then
    if c.toNat < 0x10000 then
      '\\' :: 'u' :: hex4Chars c.toNat
    else
      ('\\' :: 'u' :: hex4Chars (0xd800 + (c.toNat - 0x10000) / 0x400)) ++
        ('\\' :: 'u' :: hex4Chars (0xdc00 + (c.toNat - 0x10000) % 0x400))
  else [c]

/-- The characters of a JSON string literal for `s`, quotes included. -/
def dumpStr (s : String) : List Char :=
  '"' :: (s.toList.flatMap escChar ++ ['"'])

/-- The keyword characters `json.dumps` writes for the `null` literal. -/
def kwNull : List Char := ['n', 'u', 'l', 'l']

/-- The keyword characters `json.dumps` writes for `True`. -/
def kwTrue : List Char := ['t', 'r', 'u', 'e']

/-- The keyword characters `json.dumps` writes for `False`. -/
def kwFalse : List Char := ['f', 'a', 'l', 's', 'e']

mutual

/-- Embeds `json.dumps` with its default options, producing the character
list of the single-line document. -/
def dumpVal : Json → List Char
  | .null => kwNull
  | .bool true => kwTrue
  | .bool false => kwFalse
  | .num i => intChars i
  | .str s => dumpStr s
  | .arr xs => '[' :: (dumpElems xs ++ [']'])
  | .obj ms => '{' :: (dumpMembers ms ++ ['}'])

/-- Array elements joined by the default item separator `", "`. -/
def dumpElems : List Json → List Char
  | [] => []
  | [x] => dumpVal x
  | x :: y :: ys => dumpVal x ++ ',' :: ' ' :: dumpElems (y :: ys)

/-- Object members `key: value` joined by `", "`, with the default key
separator `": "`. -/
def dumpMembers : List (String × Json) → List Char
  | [] => []
  | [(k, v)] => dumpStr k ++ ':' :: ' ' :: dumpVal v
  | (k, v) :: m :: ms =>
      dumpStr k ++ ':' :: ' ' :: dumpVal v ++ ',' :: ' ' :: dumpMembers (m :: ms)

end

/-- Embeds `json.dumps` at the string level. -/
def dumps (j : Json) : String :=
  ⟨dumpVal j⟩

/-- The single-character string escapes `json.decoder.BACKSLASH` accepts. -/
def unescapeChar : Char → Option Char
  | '"' => some '"'
  | '\\' => some '\\'
  | '/' => some '/'
  | 'b' => some (Char.ofNat 8)
  | 'f' => some (Char.ofNat 12)
  | 'n' => some '\n'
  | 'r' => some '\r'
  | 't' => some '\t'
  | _ => none

/-- The value of a hexadecimal digit character, either case. -/
def hexVal (c : Char) : Option Nat :=
  if '0' ≤ c && c ≤ '9' then some (c.toNat - 48)
  else if 'a' ≤ c && c ≤ 'f' then some (c.toNat - 87)
  else if 'A' ≤ c && c ≤ 'F' then some (c.toNat - 55)
  else none

/-- The value of four hexadecimal digit characters. -/
def hex4Val (a b c d : Char) : Option Nat := do
  let va ← hexVal a
  let vb ← hexVal b
  let vc ← hexVal c
  let vd ← hexVal d
  pure (((va * 16 + vb) * 16 + vc) * 16 + vd)

/-- Embeds `json.decoder.py_scanstring` after the opening quote: literal
characters up to the closing quote, shorthand escapes, and `\uXXXX` escapes
with CPython's surrogate-pair joining.  Strict mode, so unescaped control
characters are rejected; lone-surrogate escapes (which CPython would keep
as unrepresentable lone-surrogate characters) are model failures. -/
def parseStringBody : List Char → Option (List Char × List Char)
  | [] => none
  | '"' :: rest => some ([], rest)
  | '\\' :: esc =>
      match esc with
      | 'u' :: a :: b :: c :: d :: rest =>
          match hex4Val a b c d with
          | none => none
          | some u =>
              if 0xd800 ≤ u && u ≤ 0xdbff then
                match rest with
                | '\\' :: 'u' :: e :: f :: g :: h :: rest2 =>
                    match hex4Val e f g h with
                    | none => none
                    | some u2 =>
                        if 0xdc00 ≤ u2 && u2 ≤ 0xdfff then
                          (parseStringBody rest2).map fun (cs, r) =>
                            (Char.ofNat
                              (0x10000 + ((u - 0xd800) * 0x400 + (u2 - 0xdc00)))
                              :: cs, r)
                        else none
                | _ => none
              else if 0xdc00 ≤ u && u ≤ 0xdfff then none
              else
                (parseStringBody rest).map fun (cs, r) => (Char.ofNat u :: cs, r)
      | e :: rest =>
          match unescapeChar e with
          | some ch => (parseStringBody rest).map fun (cs, r) => (ch :: cs, r)
          | none => none
      | [] => none
  | c :: rest =>
      if c.toNat < 0x20 then none
      else (parseStringBody rest).map fun (cs, r) => (c :: cs, r)

/-- The maximal run of decimal digits at the head of the input. -/
def takeDigitsRun : List Char → List Char × List Char
  | c :: cs =>
      if isDigitCh c then
        let (ds, r) := takeDigitsRun cs
        (c :: ds, r)
      else ([], c :: cs)
  | [] => ([], [])

/-- The numeric value of a run of decimal digit characters, most
significant first. -/
def charsToNat (ds : List Char) : Nat :=
  ds.foldl (fun a c => a * 10 + (c.toNat - 48)) 0

/-- Does an exponent part (`[+-]?digit`) follow, per `json.scanner.NUMBER_RE`? -/
def expFollows : List Char → Bool
  | '+' :: d :: _ => isDigitCh d
  | '-' :: d :: _ => isDigitCh d
  | d :: _ => isDigitCh d
  | [] => false

/-- After the integer part: if the regex would also match a fraction or
exponent the Python value is a float, which the model cannot represent, so
the parse fails; otherwise the number ends here. -/
def checkIntEnd (n : Nat) (r : List Char) : Option (Nat × List Char) :=
  match r with
  | '.' :: d :: _ => if isDigitCh d then none else some (n, r)
  | 'e' :: rest2 => if expFollows rest2 then none else some (n, r)
  | 'E' :: rest2 => if expFollows rest2 then none else some (n, r)
  | _ => some (n, r)

/-- The unsigned integer part of `json.scanner.NUMBER_RE`'s
`(?:0|[1-9]\d*)`: a single `0`, or a nonzero digit followed by the maximal
digit run. -/
def parseUNum : List Char → Option (Nat × List Char)
  | '0' :: rest => checkIntEnd 0 rest
  | c :: rest =>
      if isDigitCh c then
        let (ds, r) := takeDigitsRun rest
        checkIntEnd (charsToNat (c :: ds)) r
      else none
  | [] => none

/-- Embeds the number branch of `json.scanner.py_make_scanner`: optional
minus sign and integer part (floats are model failures, see `checkIntEnd`). -/
def parseNum (cs : List Char) : Option (Int × List Char) :=
  match cs with
  | '-' :: rest => (parseUNum rest).map fun (n, r) => (-(n : Int), r)
  | _ => (parseUNum cs).map fun (n, r) => ((n : Int), r)

mutual

/-- Embeds the value scanner of `json.decoder` (`scan_once` plus the
containers' whitespace handling): literals, strings, numbers, arrays and
objects.  One fuel unit is spent per recursive call; `loads` supplies more
fuel than any input can consume.  `NaN`/`Infinity` (Python floats) are
model failures. -/
def parseVal : Nat → List Char → Option (Json × List Char)
  | 0, _ => none
  | fuel + 1, cs =>
      match skipWs cs with
      | 'n' :: 'u' :: 'l' :: 'l' :: r => some (.null, r)
      | 't' :: 'r' :: 'u' :: 'e' :: r => some (.bool true, r)
      | 'f' :: 'a' :: 'l' :: 's' :: 'e' :: r => some (.bool false, r)
      | '"' :: r =>
          (parseStringBody r).map fun (cs2, r2) => (.str ⟨cs2⟩, r2)
      | '[' :: r =>
          match skipWs r with
          | ']' :: r2 => some (.arr [], r2)
          | cs2 => (parseElems fuel cs2).map fun (xs, r2) => (.arr xs, r2)
      | '{' :: r =>
          match skipWs r with
          | '}' :: r2 => some (.obj [], r2)
          | cs2 => (parseMembers fuel cs2).map fun (ms, r2) => (.obj ms, r2)
      | c :: r =>
          if c = '-' || isDigitCh c then
            (parseNum (c :: r)).map fun (n, r2) => (.num n, r2)
          else none
      | [] => none

/-- One or more comma-separated array elements up to the closing bracket
(`json.decoder.JSONArray`; the empty array is handled in `parseVal`). -/
def parseElems : Nat → List Char → Option (List Json × List Char)
  | 0, _ => none
  | fuel + 1, cs =>
      match parseVal fuel cs with
      | none => none
      | some (v, r) =>
          match skipWs r with
          | ',' :: r2 => (parseElems fuel r2).map fun (vs, r3) => (v :: vs, r3)
          | ']' :: r2 => some ([v], r2)
          | _ => none

/-- One or more comma-separated object members up to the closing brace
(`json.decoder.JSONObject`; the empty object is handled in `parseVal`). -/
def parseMembers : Nat → List Char → Option (List (String × Json) × List Char)
  | 0, _ => none
  | fuel + 1, cs =>
      match cs with
      | '"' :: r =>
          match parseStringBody r with
          | none => none
          | some (k, r1) =>
              match skipWs r1 with
              | ':' :: r2 =>
                  match parseVal fuel r2 with
                  | none => none
                  | some (v, r3) =>
                      match skipWs r3 with
                      | ',' :: r4 =>
                          (parseMembers fuel (skipWs r4)).map
                            fun (ms, r5) => ((⟨k⟩, v) :: ms, r5)
                      | '}' :: r4 => some ([(⟨k⟩, v)], r4)
                      | _ => none
              | _ => none
      | _ => none

end

/-- Embeds `json.loads`: scan one document and reject trailing characters
other than whitespace. -/
def loads (s : String) : Option Json :=
  match parseVal (s.toList.length + 2) s.toList with
  | some (j, r) => if (skipWs r).isEmpty then some j else none
  | none => none

/-- Embeds `JsonProcess.readjson` (process.py lines 347-357) at the level
of the line its `readline` returned: a `None` line is returned as is
(Python `None`, here `.null`), a line equal to the four characters `null`
is returned as is (the raw string, not a parsed value), and any other line
is passed to `json.loads` (a malformed line raises `JSONDecodeError`). -/
def readjsonLine (line : Option String) : Except PyErr Json :=
  match line with
  | none => .ok .null
  | some l =>
      if l = "null" then .ok (.str l)
      else
        match loads l with
        | some j => .ok j
        | none => .error .jsonDecodeError

/-- Embeds `JsonProcess.writejson` (process.py lines 359-369) at the line
level: Python `None` (here `.null`) passes through as the raw stream-close
pill, any other object is serialized with `json.dumps`. -/
def writejsonLine (obj : Json) : Option String :=
  match obj with
  | .null => none
  | j => some (dumps j)

/-- A remainder that cannot extend a number token: empty, or headed by a
character that is neither a digit nor `.`, `e`, `E`.  Every JSON delimiter
(comma, closing bracket or brace, end of line) qualifies (spec-side
helper for the round-trip statements). -/
def numDelim : List Char → Bool
  | [] => true
  | c :: _ => !(isDigitCh c || c = '.' || c = 'e' || c = 'E')

/-- The example request object of the specification:
`{key: "K", fields: {"a": ["1","2"]}}`. -/
def exRequest : Json :=
  .obj [("key", .str "K"), ("fields", .obj [("a", .arr [.str "1", .str "2"])])]

/-! ### The batch process layer -/

/-- Python's `'\n'.join(lines) + '\n' if lines else ''` used by
`Process.communicate`. -/
def joinLines (ls : List String) : String :=
  if ls.isEmpty then "" else String.intercalate "\n" ls ++ "\n"

/-- Embeds `Process.communicate` (process.py lines 259-286) as called by
`check` (no input, zero timeout): drain stdout and stderr and join the
collected lines. -/
def Process.communicate (p : Process) :
    Except PyErr ((String × String) × Process) := do
  let (outs, p1) ← p.readlines "stdout" none
  let (errs, p2) ← p1.readlines "stderr" none
  pure ((joinLines outs, joinLines errs), p2)

/-- Embeds `Process.check` (process.py lines 288-310): poll the process;
if it has exited, capture the remaining output and raise
`CalledProcessError` on a nonzero exit code, otherwise return the
`CompletedProcess`; if it is still running return `None`. -/
def Process.check (p : Process) :
    Except PyErr (Option CompletedProcess × Process) :=
  match p.poll with
  | none => .ok (none, p)
  | some rc => do
      let ((out, err), p2) ← p.communicate
      if rc ≠ 0 then .error (.calledProcessError rc out err)
      else .ok (some ⟨rc, out, err⟩, p2)

/-- Modelled from the spec: the well-behaved batch child process running
while the calling thread is blocked.  The writer thread flushes queued
stdin lines in order; the child consumes each line and answers with
exactly one stdout line (`childF`), which the stdout reader thread
enqueues; a flushed poison pill closes stdin, upon which the child exits
(exit code 0) and the reader enqueues the EOF sentinel.  This is the
specification's child model (spec sections 3 and 4.3) — the child is the
external `git-annex` program, not code of this repository. -/
def Process.childRun (p : Process) : Process :=
  match h : p.stdinQ.items with
  | [] => p
  | some l :: rest =>
      Process.childRun
        { p with
            stdinQ := ⟨rest, p.stdinQ.alive⟩
            consumed := p.consumed ++ [l]
            stdoutQ := ⟨p.stdoutQ.items ++ [some (p.childF l)],
              p.stdoutQ.alive⟩ }
  | none :: rest =>
      { p with
          stdinQ := ⟨rest, false⟩
          stdoutQ := ⟨p.stdoutQ.items ++ [none], p.stdoutQ.alive⟩
          poll := some 0 }
termination_by p.stdinQ.items.length
decreasing_by simp [h]

/-- Embeds `Process.__call__` (process.py lines 312-319): write the line to
stdin, then block reading one stdout line.  The child model (`childRun`)
runs between the write and the read, standing for the child answering
while the caller blocks. -/
def Process.syncCall (p : Process) (line : Option String) :
    Except PyErr (Option String × Process) := do
  let p1 ← p.writeline line
  (p1.childRun).readline "stdout"

/-- Embeds `GitAnnexBatchProcess` (process.py lines 381-468): the command,
working directory, and the current and previously dead `Process`. -/
structure GitAnnexBatchProcess where
  args : String
  workdir : String
  _process : Option Process
  _dead_process : Option Process

/-- Embeds the spawn-and-classify part of the `GitAnnexBatchProcess.process`
property (process.py lines 397-429).  `spawn` is the result of the
`Process` constructor (or the exception it raised); `check` then verifies
the fresh process.  A `FileNotFoundError` naming a missing path and a
`CalledProcessError` whose stderr shows the not-a-git-repository message
are re-raised as `NotAGitRepoError`.  On success, any stdin lines still
queued on the dead predecessor are drained (`readlines(source='stdin')`)
and copied, in order, to the new process's writer queue. -/
def GitAnnexBatchProcess.processSpawn (b : GitAnnexBatchProcess)
    (old : Option Process) (spawn : Except PyErr Process) :
    Except PyErr (Process × GitAnnexBatchProcess) :=
  match spawn with
  | .error (.fileNotFoundError s) =>
      if pyIn "No such file or directory:" s then
        .error (.notAGitRepoError
          ("Path '" ++ b.workdir ++ "' does not exist."))
      else .error (.fileNotFoundError s)
  | .error e => .error e
  | .ok np =>
      match np.check with
      | .error (.calledProcessError rc out err) =>
          if pyIn "git-annex: Not in a git repository" err then
            .error (.notAGitRepoError
              ("Path '" ++ b.workdir ++ "' is not in a git repository."))
          else .error (.calledProcessError rc out err)
      | .error e => .error e
      | .ok (_, np1) =>
          match old with
          | some oldp =>
              match oldp.readlines "stdin" none with
              | .error e => .error e
              | .ok (stdinLines, oldp1) =>
                  match np1.writelines stdinLines with
                  | .error e => .error e
                  | .ok np2 =>
                      .ok (np2, { b with
                        _process := some np2
                        _dead_process := some oldp1 })
          | none => .ok (np1, { b with _process := some np1 })

/-- Embeds the `GitAnnexBatchProcess.process` property (process.py lines
397-429): return the current process if it is alive, otherwise spawn a
replacement, carrying over the dead process's unflushed stdin lines. -/
def GitAnnexBatchProcess.processGet (b : GitAnnexBatchProcess)
    (spawn : Except PyErr Process) :
    Except PyErr (Process × GitAnnexBatchProcess) :=
  match b._process with
  | some p =>
      if p.poll = none then .ok (p, b)
      else b.processSpawn (some p) spawn
  | none => b.processSpawn none spawn

/-- Embeds `GitAnnexBatchProcess.__call__` (process.py lines 431-458):
obtain a (possibly respawned) process, send the line and read one response
(`p(line)`), then `check` for a death (on `CalledProcessError` the stdin
thread is closed with a poison pill before re-raising; `p.wait()` after an
EOF response is a no-op in the model, where the child's exit code is
already set when it consumes EOF).  When the process exited normally
despite a non-EOF input, stdin is also closed just in case.  The mutated
process object is stored back into the state, as Python mutates it in
place. -/
def GitAnnexBatchProcess.call (b : GitAnnexBatchProcess)
    (spawn : Except PyErr Process) (line : Option String) :
    Except PyErr (Option String × GitAnnexBatchProcess) := do
  let (p, b1) ← b.processGet spawn
  let (output, p3) ← p.syncCall line
  match p3.check with
  | .error (.calledProcessError rc out err) =>
      (match p3.writeline none with
        | .ok _ => .error (.calledProcessError rc out err)
        | .error e3 => .error e3)
  | .error e => .error e
  | .ok (done, p4) =>
      match line, done with
      | some _, some _ =>
          (match p4.writeline none with
            | .ok p5 => .ok (output, { b1 with _process := some p5 })
            | .error e3 => .error e3)
      | _, _ => .ok (output, { b1 with _process := some p4 })

/-- A single serialized caller submitting requests one by one and
collecting the responses in order (spec-side driver for the ordering
property P1). -/
def GitAnnexBatchProcess.runBatch (b : GitAnnexBatchProcess)
    (spawn : Except PyErr Process) :
    List String → Except PyErr (List (Option String) × GitAnnexBatchProcess)
  | [] => .ok ([], b)
  | l :: ls => do
      let (out, b1) ← b.call spawn (some l)
      let (outs, b2) ← b1.runBatch spawn ls
      .ok (out :: outs, b2)

/-! ### The metadata mapping (repo.py) -/

/-- A Python value assigned to a metadata field: a set of strings, or one
of the non-set values a caller might mistakenly pass. -/
inductive PyValue where
  | pyset (elems : List String)
  | pylist (elems : List String)
  | pystr (s : String)
  | pynone

/-- The `isinstance(value, set)` test. -/
def PyValue.isSet : PyValue → Bool
  | .pyset _ => true
  | _ => false

/-- A short rendering of a value for error messages (the embedded message
elides Python's exact `repr`). -/
def PyValue.show : PyValue → String
  | .pyset _ => "set"
  | .pylist _ => "list"
  | .pystr s => s
  | .pynone => "None"

/-- A request sent to `git-annex metadata --batch --json`: the key and the
optional fields assignment (repo.py lines 490-510). -/
structure MetaQuery where
  key : Option String
  fields : Option (List (String × List String))

/-- Embeds an `AnnexedFileMetadata` object (repo.py lines 224-316): the
file's key, the cached fields, and — modelling the batch process — the
log of requests it has been sent, in order. -/
structure AnnexedFileMetadata where
  key : String
  cache : Option (List (String × List String))
  sent : List MetaQuery

/-- Embeds `AnnexedFileMetadata._metadata` (repo.py lines 246-256):
with truthy `fields` (a nonempty dict) send an assignment and cache the
returned fields; with no (or an empty) `fields` dict, fetch and cache only
if the cache is cold.  `responder` models the fields object git-annex
returns for a request. -/
def AnnexedFileMetadata.metadataFetch (st : AnnexedFileMetadata)
    (responder : MetaQuery → List (String × List String))
    (fields : Option (List (String × List String))) :
    List (String × List String) × AnnexedFileMetadata :=
  match fields with
  | some fs =>
      if fs.isEmpty then
        match st.cache with
        | none =>
            let q : MetaQuery := ⟨some st.key, none⟩
            let out := responder q
            (out, { st with cache := some out, sent := st.sent ++ [q] })
        | some c => (c, st)
      else
        let q : MetaQuery := ⟨some st.key, some fs⟩
        let out := responder q
        (out, { st with cache := some out, sent := st.sent ++ [q] })
  | none =>
      match st.cache with
      | none =>
          let q : MetaQuery := ⟨some st.key, none⟩
          let out := responder q
          (out, { st with cache := some out, sent := st.sent ++ [q] })
      | some c => (c, st)

/-- Embeds `AnnexedFileMetadata.__setitem__` (repo.py lines 262-268): a
non-set value raises `TypeError` before `_metadata` is reached; a set is
sent as `{field: list(value)}`. -/
def AnnexedFileMetadata.setitem (st : AnnexedFileMetadata)
    (responder : MetaQuery → List (String × List String)) (field : String)
    (v : PyValue) : Except PyErr Unit × AnnexedFileMetadata :=
  match v with
  | .pyset elems =>
      let (_, st2) := st.metadataFetch responder (some [(field, elems)])
      (.ok (), st2)
  | _ =>
      (.error (.typeError
        ("Field '" ++ field ++ "' value '" ++ v.show ++ "' must be a set.")),
        st)

/-- The conversion loop of `AnnexedFileMetadata.update` (repo.py lines
295-300): each value must be a set and is converted to a list; the first
non-set value raises `TypeError` before anything is sent. -/
def convertFields : List (String × PyValue) →
    Except PyErr (List (String × List String))
  | [] => .ok []
  | (f, v) :: rest =>
      match v with
      | .pyset elems => (convertFields rest).map fun r => (f, elems) :: r
      | _ =>
          .error (.typeError
            ("Field '" ++ f ++ "' value '" ++ v.show ++ "' must be a set."))

/-- Embeds `AnnexedFileMetadata.update` (repo.py lines 285-302) on the
merged dict of its positional and keyword arguments: convert all values
(raising on the first non-set one), then send the whole assignment. -/
def AnnexedFileMetadata.update (st : AnnexedFileMetadata)
    (responder : MetaQuery → List (String × List String))
    (fields : List (String × PyValue)) :
    Except PyErr Unit × AnnexedFileMetadata :=
  match convertFields fields with
  | .error e => (.error e, st)
  | .ok conv =>
      let (_, st2) := st.metadataFetch responder (some conv)
      (.ok (), st2)

/-- A dead batch child with two unflushed request lines still queued. -/
def deadProc : Process :=
  ⟨"('git', 'annex', 'metadata', '--batch', '--json')",
    ⟨[some "q1", some "q2"], true⟩, ⟨[], false⟩, ⟨[], false⟩, some 1,
    fun s => s, []⟩

/-- A fresh, idle replacement child. -/
def freshProc : Process :=
  ⟨"('git', 'annex', 'metadata', '--batch', '--json')",
    ⟨[], true⟩, ⟨[], true⟩, ⟨[], true⟩, none, fun s => s, []⟩

/-- The batch state whose current process is `deadProc`. -/
def deadBatch : GitAnnexBatchProcess :=
  ⟨"('git', 'annex', 'metadata', '--batch', '--json')", "/repo",
    some deadProc, none⟩

/-- A batch state that has not spawned a process yet. -/
def emptyBatch : GitAnnexBatchProcess :=
  ⟨"('git', 'annex', 'metadata', '--batch', '--json')", "/repo", none, none⟩

/-! ### Theorems -/

/-- Inversion for `LineReaderQueue.get`: a dequeued sentinel means the
thread was joined, so the successor queue is dead and holds the remaining
items. -/
theorem LineReaderQueue.get_none {q q' : LineReaderQueue}
    (h : q.get = .ok (none, q')) :
    q'.alive = false ∧ q.items = none :: q'.items := by
  unfold LineReaderQueue.get at h
  split at h
  · exact absurd h (by simp)
  · match hq : q.items with
    | [] => rw [hq] at h; exact absurd h (by simp)
    | some l :: rest => rw [hq] at h; simp at h
    | none :: rest =>
        rw [hq] at h
        simp only [Except.ok.injEq, Prod.mk.injEq] at h
        obtain ⟨-, rfl⟩ := h
        exact ⟨rfl, rfl⟩

/-- A dead reader queue with no items left raises `BrokenPipeError`. -/
theorem LineReaderQueue.get_dead {q : LineReaderQueue}
    (halive : q.alive = false) (hitems : q.items = []) :
    q.get = .error (.brokenPipeError "Reader thread is dead.") := by
  unfold LineReaderQueue.get
  rw [halive, hitems]
  rfl


/-- Claim C3 (counterexample to the claim as stated).  On a channel whose
stdout holds exactly the EOF sentinel, the first `readline` returns the
sentinel, but the very next `readline` on the same instance raises
`BrokenPipeError` instead of returning the sentinel again: the code's own
docstring for `LineReaderQueue.get` documents the raise.  This refutes
"every subsequent readline call ... also returns the sentinel (None) — it
never raises instead". -/
theorem readline_after_eof_raises :
    procAtEof.readline "stdout" = .ok (none, procPastEof) ∧
    procPastEof.readline "stdout" =
      .error (.brokenPipeError
        ("Reader thread for stdout of command " ++
          "('git', 'annex', 'metadata', '--batch', '--json')" ++
          " is dead.")) := by
  constructor <;> rfl

/-- Claim C3 (amended).  Once `readline` has returned the exhaustion
sentinel for stdout or stderr — after which nothing follows the sentinel in
the queue, since the reader thread enqueues it last before dying — every
subsequent `readline` on that stream raises `BrokenPipeError`; in
particular it never yields a real line after EOF and never returns the
sentinel again. -/
theorem readline_sentinel_then_broken (p p' : Process) (src : String)
    (hsrc : src = "stdout" ∨ src = "stderr")
    (hread : p.readline src = .ok (none, p'))
    (hlast : (p'.sourceItems src) = []) :
    p'.readline src =
      .error (.brokenPipeError
        ("Reader thread for " ++ src ++ " of command " ++ p'.args ++
          " is dead.")) := by
  rcases hsrc with rfl | rfl
  · unfold Process.readline at hread
    simp only [if_pos rfl] at hread
    match hq : p.stdoutQ.get with
    | .error e =>
        rw [hq] at hread
        cases e <;> simp [Except.map] at hread
    | .ok (some l, q') => rw [hq] at hread; simp [Except.map] at hread
    | .ok (none, q') =>
        rw [hq] at hread
        simp only [Except.map, Except.ok.injEq, Prod.mk.injEq] at hread
        obtain ⟨-, rfl⟩ := hread
        obtain ⟨hdead, -⟩ := LineReaderQueue.get_none hq
        unfold Process.sourceItems at hlast
        simp only [if_pos rfl] at hlast
        unfold Process.readline
        simp only [if_pos rfl]
        rw [LineReaderQueue.get_dead hdead hlast]
        rfl
  · unfold Process.readline at hread
    simp only [reduceIte] at hread
    match hq : p.stderrQ.get with
    | .error e =>
        rw [hq] at hread
        cases e <;> simp [Except.map] at hread
    | .ok (some l, q') => rw [hq] at hread; simp [Except.map] at hread
    | .ok (none, q') =>
        rw [hq] at hread
        simp only [Except.map, Except.ok.injEq, Prod.mk.injEq] at hread
        obtain ⟨-, rfl⟩ := hread
        obtain ⟨hdead, -⟩ := LineReaderQueue.get_none hq
        unfold Process.sourceItems at hlast
        simp only [reduceIte] at hlast
        unfold Process.readline
        simp only [reduceIte]
        rw [LineReaderQueue.get_dead hdead hlast]
        rfl

/-- Witness for the amended claim C3, at the concrete exhausted channel. -/
theorem readline_sentinel_then_broken_witness :
    procPastEof.readline "stdout" =
      .error (.brokenPipeError
        ("Reader thread for stdout of command " ++ procPastEof.args ++
          " is dead.")) :=
  readline_sentinel_then_broken procAtEof procPastEof "stdout"
    (Or.inl rfl) (by rfl) (by rfl)

/-- Claim C4.  Writing a line to a channel whose stdin writer thread has
already terminated raises `BrokenPipeError` both at the queue level (where
the liveness check precedes any enqueue, so nothing is silently dropped)
and at the `Process.writeline` level; the put is non-blocking
(`block=False`), so the call cannot hang. -/
theorem writeline_dead_writer_raises (p : Process) (line : Option String)
    (hdead : p.stdinQ.alive = false) :
    p.stdinQ.put line = .error (.brokenPipeError "Writer thread is dead.") ∧
    p.writeline line =
      .error (.brokenPipeError
        ("Writer thread for stdin of command " ++ p.args ++ " is dead.")) := by
  have hput : p.stdinQ.put line =
      .error (.brokenPipeError "Writer thread is dead.") := by
    unfold LineWriterQueue.put
    rw [hdead]
    rfl
  refine ⟨hput, ?_⟩
  unfold Process.writeline
  rw [hput]

/-- Witness for claim C4 at a concrete dead-writer channel. -/
theorem writeline_dead_writer_raises_witness :
    procDeadWriter.stdinQ.put (some "request") =
      .error (.brokenPipeError "Writer thread is dead.") ∧
    procDeadWriter.writeline (some "request") =
      .error (.brokenPipeError
        ("Writer thread for stdin of command " ++ procDeadWriter.args ++
          " is dead.")) :=
  writeline_dead_writer_raises procDeadWriter (some "request") rfl

/-- Characterization of `Process.readline` on stdout, by queue shape. -/
theorem Process.readline_stdout (p : Process) :
    p.readline "stdout" =
      match p.stdoutQ.items, p.stdoutQ.alive with
      | [], true =>
          .error (.timeoutError ("stdout of command " ++ p.args ++ " timed out"))
      | [], false =>
          .error (.brokenPipeError
            ("Reader thread for stdout of command " ++ p.args ++ " is dead."))
      | some l :: rest, a => .ok (some l, { p with stdoutQ := ⟨rest, a⟩ })
      | none :: rest, _ => .ok (none, { p with stdoutQ := ⟨rest, false⟩ }) := by
  unfold Process.readline LineReaderQueue.get
  rcases hq : p.stdoutQ with ⟨items, alive⟩
  match items, alive with
  | [], true => simp [hq, Except.map]
  | [], false => simp [hq, Except.map]
  | some l :: rest, a => simp [hq, Except.map]
  | none :: rest, a => cases a <;> simp [hq, Except.map]

/-- Characterization of `Process.readline` on stderr, by queue shape. -/
theorem Process.readline_stderr (p : Process) :
    p.readline "stderr" =
      match p.stderrQ.items, p.stderrQ.alive with
      | [], true =>
          .error (.timeoutError ("stderr of command " ++ p.args ++ " timed out"))
      | [], false =>
          .error (.brokenPipeError
            ("Reader thread for stderr of command " ++ p.args ++ " is dead."))
      | some l :: rest, a => .ok (some l, { p with stderrQ := ⟨rest, a⟩ })
      | none :: rest, _ => .ok (none, { p with stderrQ := ⟨rest, false⟩ }) := by
  unfold Process.readline LineReaderQueue.get
  rcases hq : p.stderrQ with ⟨items, alive⟩
  match items, alive with
  | [], true => simp [hq, Except.map]
  | [], false => simp [hq, Except.map]
  | some l :: rest, a => simp [hq, Except.map]
  | none :: rest, a => cases a <;> simp [hq, Except.map]

/-- Characterization of `Process.readline` on stdin (the inherited base
queue `get`), by queue shape. -/
theorem Process.readline_stdin (p : Process) :
    p.readline "stdin" =
      match p.stdinQ.items with
      | [] =>
          .error (.timeoutError ("stdin of command " ++ p.args ++ " timed out"))
      | item :: rest => .ok (item, { p with stdinQ := ⟨rest, p.stdinQ.alive⟩ }) := by
  unfold Process.readline LineWriterQueue.queueGet
  rcases hq : p.stdinQ with ⟨items, alive⟩
  match items with
  | [] => simp [hq, Except.map]
  | item :: rest => cases item <;> simp [hq, Except.map]

/-- Draining stdout with `readlinesGo` never raises: it returns exactly the
lines available before the sentinel, the timeout, or the dead reader,
truncated by the count. -/
theorem readlinesGo_stdout :
    ∀ (items : List (Option String)) (fuel : Nat) (count : Option Nat)
      (p : Process), p.stdoutQ.items = items → items.length < fuel →
      ∃ p', Process.readlinesGo fuel count p "stdout" =
        .ok (truncCount count (collectedLines items), p') := by
  intro items
  induction items with
  | nil =>
      intro fuel count p hp hf
      cases fuel with
      | zero => omega
      | succ fuel =>
        unfold Process.readlinesGo
        by_cases h0 : count = some 0
        · refine ⟨p, ?_⟩
          subst h0
          simp [truncCount, collectedLines]
        · rw [if_neg h0]
          refine ⟨p, ?_⟩
          have hread := Process.readline_stdout p
          rw [hp] at hread
          cases halive : p.stdoutQ.alive <;> rw [halive] at hread <;>
            · rw [hread]
              rcases count with - | c <;> simp [truncCount, collectedLines]
  | cons item rest ih =>
      intro fuel count p hp hf
      cases fuel with
      | zero => omega
      | succ fuel =>
        unfold Process.readlinesGo
        by_cases h0 : count = some 0
        · refine ⟨p, ?_⟩
          subst h0
          simp [truncCount]
        · rw [if_neg h0]
          have hread := Process.readline_stdout p
          rw [hp] at hread
          match item with
          | none =>
              refine ⟨{ p with stdoutQ := ⟨rest, false⟩ }, ?_⟩
              rw [hread]
              rcases count with - | c <;>
                simp [truncCount, collectedLines]
          | some l =>
              have hlen : rest.length < fuel := by
                simp only [List.length_cons] at hf
                omega
              obtain ⟨p', hp'⟩ :=
                ih fuel (count.map fun n => n - 1)
                  { p with stdoutQ := ⟨rest, p.stdoutQ.alive⟩ } rfl hlen
              refine ⟨p', ?_⟩
              rw [hread]
              simp only [bind, Except.bind, hp']
              rcases count with - | c
              · simp [truncCount, collectedLines]
              · match c with
                | 0 => exact absurd rfl h0
                | c + 1 => simp [truncCount, collectedLines, Option.map]

/-- Draining stderr with `readlinesGo` never raises: the stderr analogue of
the stdout drain lemma. -/
theorem readlinesGo_stderr :
    ∀ (items : List (Option String)) (fuel : Nat) (count : Option Nat)
      (p : Process), p.stderrQ.items = items → items.length < fuel →
      ∃ p', Process.readlinesGo fuel count p "stderr" =
        .ok (truncCount count (collectedLines items), p') := by
  intro items
  induction items with
  | nil =>
      intro fuel count p hp hf
      cases fuel with
      | zero => omega
      | succ fuel =>
        unfold Process.readlinesGo
        by_cases h0 : count = some 0
        · refine ⟨p, ?_⟩
          subst h0
          simp [truncCount, collectedLines]
        · rw [if_neg h0]
          refine ⟨p, ?_⟩
          have hread := Process.readline_stderr p
          rw [hp] at hread
          cases halive : p.stderrQ.alive <;> rw [halive] at hread <;>
            · rw [hread]
              rcases count with - | c <;> simp [truncCount, collectedLines]
  | cons item rest ih =>
      intro fuel count p hp hf
      cases fuel with
      | zero => omega
      | succ fuel =>
        unfold Process.readlinesGo
        by_cases h0 : count = some 0
        · refine ⟨p, ?_⟩
          subst h0
          simp [truncCount]
        · rw [if_neg h0]
          have hread := Process.readline_stderr p
          rw [hp] at hread
          match item with
          | none =>
              refine ⟨{ p with stderrQ := ⟨rest, false⟩ }, ?_⟩
              rw [hread]
              rcases count with - | c <;>
                simp [truncCount, collectedLines]
          | some l =>
              have hlen : rest.length < fuel := by
                simp only [List.length_cons] at hf
                omega
              obtain ⟨p', hp'⟩ :=
                ih fuel (count.map fun n => n - 1)
                  { p with stderrQ := ⟨rest, p.stderrQ.alive⟩ } rfl hlen
              refine ⟨p', ?_⟩
              rw [hread]
              simp only [bind, Except.bind, hp']
              rcases count with - | c
              · simp [truncCount, collectedLines]
              · match c with
                | 0 => exact absurd rfl h0
                | c + 1 => simp [truncCount, collectedLines, Option.map]

/-- Draining stdin with `readlinesGo` never raises: the drain used when a
dead process's unflushed request lines are copied to its successor. -/
theorem readlinesGo_stdin :
    ∀ (items : List (Option String)) (fuel : Nat) (count : Option Nat)
      (p : Process), p.stdinQ.items = items → items.length < fuel →
      ∃ p', Process.readlinesGo fuel count p "stdin" =
        .ok (truncCount count (collectedLines items), p') := by
  intro items
  induction items with
  | nil =>
      intro fuel count p hp hf
      cases fuel with
      | zero => omega
      | succ fuel =>
        unfold Process.readlinesGo
        by_cases h0 : count = some 0
        · refine ⟨p, ?_⟩
          subst h0
          simp [truncCount, collectedLines]
        · rw [if_neg h0]
          refine ⟨p, ?_⟩
          have hread := Process.readline_stdin p
          rw [hp] at hread
          rw [hread]
          rcases count with - | c <;> simp [truncCount, collectedLines]
  | cons item rest ih =>
      intro fuel count p hp hf
      cases fuel with
      | zero => omega
      | succ fuel =>
        unfold Process.readlinesGo
        by_cases h0 : count = some 0
        · refine ⟨p, ?_⟩
          subst h0
          simp [truncCount]
        · rw [if_neg h0]
          have hread := Process.readline_stdin p
          rw [hp] at hread
          match item with
          | none =>
              refine ⟨{ p with stdinQ := ⟨rest, p.stdinQ.alive⟩ }, ?_⟩
              rw [hread]
              rcases count with - | c <;>
                simp [truncCount, collectedLines]
          | some l =>
              have hlen : rest.length < fuel := by
                simp only [List.length_cons] at hf
                omega
              obtain ⟨p', hp'⟩ :=
                ih fuel (count.map fun n => n - 1)
                  { p with stdinQ := ⟨rest, p.stdinQ.alive⟩ } rfl hlen
              refine ⟨p', ?_⟩
              rw [hread]
              simp only [bind, Except.bind, hp']
              rcases count with - | c
              · simp [truncCount, collectedLines]
              · match c with
                | 0 => exact absurd rfl h0
                | c + 1 => simp [truncCount, collectedLines, Option.map]

/-- Claim C10 (counterexample to the claim as stated).  Quantified over
"every source", the claim fails: for a source string naming none of the
three streams, `readline` leaves its local variable `q` unassigned and
raises `UnboundLocalError`, which the `except TimeoutError` / `except
BrokenPipeError` clauses of `readlines` do not catch — so `readlines`
raises instead of returning a list. -/
theorem readlines_bogus_source_raises :
    procTwoLines.readlines "bogus" (some 1) = .error .nameError := by
  rfl

/-- Claim C10 (amended).  For every channel, every count and every source
naming one of the three streams, `readlines` never raises: it returns a
list holding exactly the lines obtained before a timeout, the EOF sentinel,
or a dead-reader condition ended the loop, truncated to at most `count`
lines. -/
theorem readlines_total (p : Process) (source : String) (count : Option Nat)
    (hsrc : source = "stdout" ∨ source = "stderr" ∨ source = "stdin") :
    ∃ p', p.readlines source count =
      .ok (truncCount count (collectedLines (p.sourceItems source)), p') := by
  rcases hsrc with rfl | rfl | rfl
  · exact readlinesGo_stdout p.stdoutQ.items _ count p rfl (by omega)
  · exact readlinesGo_stderr p.stderrQ.items _ count p rfl (by omega)
  · exact readlinesGo_stdin p.stdinQ.items _ count p rfl (by omega)

/-- Witness for the amended claim C10 at a concrete two-line channel. -/
theorem readlines_total_witness :
    ∃ p', procTwoLines.readlines "stdout" (some 1) = .ok (["a"], p') := by
  obtain ⟨p', hp'⟩ :=
    readlines_total procTwoLines "stdout" (some 1) (Or.inl rfl)
  exact ⟨p', hp'⟩

/-! ### Round-trip lemmas for the JSON codec -/

/-- Valid scalar values of a `Char` never lie in the surrogate range. -/
theorem char_toNat_range (c : Char) :
    c.toNat < 0xd800 ∨ (0xdfff < c.toNat ∧ c.toNat < 0x110000) := by
  rcases c.valid with h | h
  · exact Or.inl h
  · exact Or.inr ⟨h.1, h.2⟩

/-- Constructing a `Char` from a valid scalar value recovers that value. -/
theorem toNat_ofNat_valid (n : Nat) (h : Nat.isValidChar n) :
    (Char.ofNat n).toNat = n := by
  unfold Char.ofNat
  rw [dif_pos h]
  unfold Char.ofNatAux Char.toNat
  have hlt : n < 2 ^ 32 := by
    rcases h with h | h <;> omega
  simp [UInt32.toNat, BitVec.toNat_ofNat, Nat.mod_eq_of_lt hlt]

/-- Decoding a lowercase hex digit character recovers its value. -/
theorem hexVal_hexDigitChar : ∀ d, d < 16 → hexVal (hexDigitChar d) = some d := by
  decide

/-- Decoding the four hex digit characters of a value below `0x10000`
recovers that value. -/
theorem hex4Val_hex4Chars (n : Nat) (h : n < 0x10000) :
    hex4Val (hexDigitChar (n / 4096 % 16)) (hexDigitChar (n / 256 % 16))
      (hexDigitChar (n / 16 % 16)) (hexDigitChar (n % 16)) = some n := by
  rw [hex4Val,
    hexVal_hexDigitChar _ (Nat.mod_lt _ (by omega)),
    hexVal_hexDigitChar _ (Nat.mod_lt _ (by omega)),
    hexVal_hexDigitChar _ (Nat.mod_lt _ (by omega)),
    hexVal_hexDigitChar _ (Nat.mod_lt _ (by omega))]
  show some _ = some n
  congr 1
  omega

/-- Parsing the escape of one character prepends exactly that character:
the decoder inverts `escChar`. -/
theorem parseStringBody_escChar (c : Char) (rest : List Char) :
    parseStringBody (escChar c ++ rest) =
      (parseStringBody rest).map fun (cs, r) => (c :: cs, r) := by
  by_cases h1 : c = '\\'
  · subst h1; rfl
  by_cases h2 : c = '"'
  · subst h2; rfl
  by_cases h3 : c = '\n'
  · subst h3; rfl
  by_cases h4 : c = '\r'
  · subst h4; rfl
  by_cases h5 : c = '\t'
  · subst h5; rfl
  by_cases h6 : c = Char.ofNat 8
  · subst h6; rfl
  by_cases h7 : c = Char.ofNat 12
  · subst h7; rfl
  rw [escChar]
  rw [if_neg h1, if_neg h2, if_neg h3, if_neg h4, if_neg h5, if_neg h6,
    if_neg h7]
  by_cases h8 : c.toNat < 0x20 || 0x7f ≤ c.toNat
  · rw [if_pos h8]
    have hrange := char_toNat_range c
    by_cases h9 : c.toNat < 0x10000
    · rw [if_pos h9]
      simp only [hex4Chars, List.cons_append]
      rw [parseStringBody]
      rw [hex4Val_hex4Chars c.toNat h9]
      have hhi : (0xd800 ≤ c.toNat && c.toNat ≤ 0xdbff) = false := by
        simp only [Bool.and_eq_false_iff, decide_eq_false_iff_not, not_le]
        omega
      have hlo : (0xdc00 ≤ c.toNat && c.toNat ≤ 0xdfff) = false := by
        simp only [Bool.and_eq_false_iff, decide_eq_false_iff_not, not_le]
        omega
      simp [hhi, hlo, Char.ofNat_toNat]
    · rw [if_neg h9]
      simp only [hex4Chars, List.cons_append, List.append_assoc,
        List.nil_append]
      rw [parseStringBody]
      rw [hex4Val_hex4Chars _ (show 0xd800 + (c.toNat - 0x10000) / 0x400 <
        0x10000 by omega)]
      have hhi : (0xd800 ≤ 0xd800 + (c.toNat - 0x10000) / 0x400 &&
          0xd800 + (c.toNat - 0x10000) / 0x400 ≤ 0xdbff) = true := by
        simp only [Bool.and_eq_true, decide_eq_true_eq]
        omega
      have hlo : (0xdc00 ≤ 0xdc00 + (c.toNat - 0x10000) % 0x400 &&
          0xdc00 + (c.toNat - 0x10000) % 0x400 ≤ 0xdfff) = true := by
        simp only [Bool.and_eq_true, decide_eq_true_eq]
        omega
      have hcomb : 0x10000 +
          ((0xd800 + (c.toNat - 0x10000) / 0x400 - 0xd800) * 0x400 +
            (0xdc00 + (c.toNat - 0x10000) % 0x400 - 0xdc00)) = c.toNat := by
        omega
      simp only [hhi, if_true]
      rw [hex4Val_hex4Chars _ (show 0xdc00 + (c.toNat - 0x10000) % 0x400 <
        0x10000 by omega)]
      simp only [hlo, if_true]
      rw [hcomb, Char.ofNat_toNat]
  · rw [if_neg h8]
    simp only [Bool.or_eq_true, decide_eq_true_eq, not_or, not_lt,
      not_le] at h8
    simp only [List.cons_append, List.nil_append]
    rw [parseStringBody.eq_def]
    simp only [h1, h2]
    rw [if_neg (by omega)]

/-- Parsing an escaped character run stops exactly at the closing quote and
recovers the original characters. -/
theorem parseStringBody_dump (cl : List Char) (rest : List Char) :
    parseStringBody (cl.flatMap escChar ++ '"' :: rest) = some (cl, rest) := by
  induction cl with
  | nil => rfl
  | cons c cs ih =>
      rw [List.flatMap_cons, List.append_assoc, parseStringBody_escChar, ih]
      rfl

/-- Parsing a dumped string literal recovers the string: the quote-wrapped
form of `parseStringBody_dump`. -/
theorem parseStringBody_dumpStr (s : String) (rest : List Char) :
    parseStringBody ((dumpStr s).tail ++ rest) = some (s.toList, rest) := by
  show parseStringBody ((s.toList.flatMap escChar ++ ['"']) ++ rest) = _
  rw [List.append_assoc]
  exact parseStringBody_dump s.toList rest

/-- Facts about a digit value's character, bundled for `d < 10`. -/
theorem digitChar_facts : ∀ d, d < 10 →
    isDigitCh (digitChar d) = true ∧ (digitChar d).toNat - 48 = d ∧
      (d ≠ 0 → digitChar d ≠ '0') := by
  decide

/-- Every character of `natDecChars n` is a decimal digit. -/
theorem natDecChars_digits (n : Nat) :
    ∀ c ∈ natDecChars n, isDigitCh c = true := by
  intro c hc
  unfold natDecChars at hc
  by_cases h0 : n = 0
  · rw [if_pos h0] at hc
    simp only [List.mem_singleton] at hc
    subst hc
    decide
  · rw [if_neg h0] at hc
    simp only [List.mem_reverse, List.mem_map] at hc
    obtain ⟨d, hd, rfl⟩ := hc
    exact (digitChar_facts d (Nat.digits_lt_base (by omega) hd)).1

/-- The digit fold inverts the decimal rendering. -/
theorem charsToNat_natDecChars (n : Nat) :
    charsToNat (natDecChars n) = n := by
  have key : ∀ L : List Nat, (∀ d ∈ L, d < 10) →
      charsToNat ((L.map digitChar).reverse) = Nat.ofDigits 10 L := by
    intro L
    induction L with
    | nil => intro; rfl
    | cons d L ih =>
        intro hall
        have hd : d < 10 := hall d (List.mem_cons_self d L)
        rw [List.map_cons, List.reverse_cons]
        unfold charsToNat
        rw [List.foldl_append]
        have ihv := ih fun x hx => hall x (List.mem_cons_of_mem d hx)
        unfold charsToNat at ihv
        rw [ihv]
        simp only [List.foldl_cons, List.foldl_nil]
        rw [(digitChar_facts d hd).2.1, Nat.ofDigits_cons]
        omega
  unfold natDecChars
  by_cases h0 : n = 0
  · rw [if_pos h0, h0]
    rfl
  · rw [if_neg h0,
      key (Nat.digits 10 n) (fun d hd => Nat.digits_lt_base (by omega) hd),
      Nat.ofDigits_digits]

/-- The decimal rendering of a natural number starts with a digit, and with
a nonzero digit when the number is nonzero. -/
theorem natDecChars_head (n : Nat) :
    ∃ c t, natDecChars n = c :: t ∧ isDigitCh c = true ∧
      (n ≠ 0 → c ≠ '0') := by
  by_cases h0 : n = 0
  · subst h0
    exact ⟨'0', [], rfl, by decide, fun h => absurd rfl h⟩
  · have hne : Nat.digits 10 n ≠ [] := Nat.digits_ne_nil_iff_ne_zero.mpr h0
    have hlast := Nat.getLast_digit_ne_zero 10 h0
    unfold natDecChars
    rw [if_neg h0]
    match hrev : ((Nat.digits 10 n).map digitChar).reverse with
    | [] =>
        exfalso
        have : (Nat.digits 10 n).map digitChar = [] := by
          have := congrArg List.reverse hrev
          simpa using this
        exact hne (List.map_eq_nil_iff.mp this)
    | c :: t =>
        refine ⟨c, t, rfl, ?_, ?_⟩
        · have hmem : c ∈ ((Nat.digits 10 n).map digitChar).reverse := by
            rw [hrev]; exact List.mem_cons_self c t
          rw [List.mem_reverse, List.mem_map] at hmem
          obtain ⟨d, hd, rfl⟩ := hmem
          exact (digitChar_facts d (Nat.digits_lt_base (by omega) hd)).1
        · intro _
          have hhead : ((Nat.digits 10 n).map digitChar).reverse.head? =
              some c := by rw [hrev]; rfl
          rw [List.head?_reverse, List.getLast?_map] at hhead
          rw [List.getLast?_eq_getLast _ hne] at hhead
          simp only [Option.map_some', Option.some.injEq] at hhead
          have hdlt : (Nat.digits 10 n).getLast hne < 10 :=
            Nat.digits_lt_base (by omega) (List.getLast_mem hne)
          rw [← hhead]
          exact (digitChar_facts _ hdlt).2.2 hlast

/-- Head facts packaged from a `numDelim` remainder. -/
theorem numDelim_head {c : Char} {t : List Char}
    (h : numDelim (c :: t) = true) :
    isDigitCh c = false ∧ c ≠ '.' ∧ c ≠ 'e' ∧ c ≠ 'E' := by
  unfold numDelim at h
  simp only [Bool.not_eq_true', Bool.or_eq_false_iff,
    decide_eq_false_iff_not] at h
  exact ⟨h.1.1.1, h.1.1.2, h.1.2, h.2⟩

/-- The digit run scanner stops immediately on a `numDelim` remainder. -/
theorem takeDigitsRun_stop {cs : List Char} (h : numDelim cs = true) :
    takeDigitsRun cs = ([], cs) := by
  match cs with
  | [] => rfl
  | c :: t =>
      unfold takeDigitsRun
      rw [if_neg (by simp [(numDelim_head h).1])]

/-- The digit run scanner consumes exactly a run of digits followed by a
remainder it stops on. -/
theorem takeDigitsRun_append (ds : List Char)
    (hds : ∀ c ∈ ds, isDigitCh c = true) (rest : List Char)
    (hrest : takeDigitsRun rest = ([], rest)) :
    takeDigitsRun (ds ++ rest) = (ds, rest) := by
  induction ds with
  | nil => simpa using hrest
  | cons c t ih =>
      have hc : isDigitCh c = true := hds c (List.mem_cons_self c t)
      have ht := ih fun x hx => hds x (List.mem_cons_of_mem c hx)
      rw [List.cons_append]
      unfold takeDigitsRun
      rw [if_pos hc, ht]

/-- With a `numDelim` remainder the integer cannot extend to a float, so
`checkIntEnd` accepts. -/
theorem checkIntEnd_delim (n : Nat) (rest : List Char)
    (h : numDelim rest = true) : checkIntEnd n rest = some (n, rest) := by
  match rest with
  | [] => rfl
  | c :: t =>
      obtain ⟨hd, hdot, he, hE⟩ := numDelim_head h
      unfold checkIntEnd
      split
      · rename_i d tail heq
        injection heq with hc ht
        exact absurd hc hdot
      · rename_i rest2 heq
        injection heq with hc ht
        exact absurd hc he
      · rename_i rest2 heq
        injection heq with hc ht
        exact absurd hc hE
      · rfl

/-- A decimal digit character is none of the JSON structural characters,
whitespace, sign, or literal heads. -/
theorem isDigitCh_ne (c : Char) (h : isDigitCh c = true) :
    jsonWs c = false ∧ c ≠ '-' ∧ c ≠ 'n' ∧ c ≠ 't' ∧ c ≠ 'f' ∧ c ≠ '"' ∧
      c ≠ '[' ∧ c ≠ '{' ∧ c ≠ ']' ∧ c ≠ '}' ∧ c ≠ ',' ∧ c ≠ ':' ∧
      c ≠ '\\' := by
  have hsp : c ≠ ' ' := fun hh => by subst hh; exact absurd h (by decide)
  have htb : c ≠ '\t' := fun hh => by subst hh; exact absurd h (by decide)
  have hnl : c ≠ '\n' := fun hh => by subst hh; exact absurd h (by decide)
  have hcr : c ≠ '\r' := fun hh => by subst hh; exact absurd h (by decide)
  refine ⟨by simp [jsonWs, hsp, htb, hnl, hcr], ?_, ?_, ?_, ?_, ?_, ?_, ?_,
    ?_, ?_, ?_, ?_, ?_⟩ <;>
    exact fun hh => by subst hh; exact absurd h (by decide)

/-- Scanning the decimal rendering of a natural number recovers it, for a
remainder that cannot extend the number. -/
theorem parseUNum_natDecChars (n : Nat) (rest : List Char)
    (hr : numDelim rest = true) :
    parseUNum (natDecChars n ++ rest) = some (n, rest) := by
  by_cases h0 : n = 0
  · subst h0
    show parseUNum ('0' :: rest) = some (0, rest)
    unfold parseUNum
    exact checkIntEnd_delim 0 rest hr
  · obtain ⟨c, t, hcons, hdig, hz⟩ := natDecChars_head n
    have hcz := hz h0
    have htdig : ∀ x ∈ t, isDigitCh x = true := fun x hx =>
      natDecChars_digits n x (by rw [hcons]; exact List.mem_cons_of_mem c hx)
    rw [hcons, List.cons_append]
    unfold parseUNum
    split
    · rename_i rest2 heq
      injection heq with hc ht
      exact absurd hc hcz
    · rename_i x1 c2 rest2 hne0 heq
      injection heq with hc ht
      subst hc
      subst ht
      rw [if_pos hdig]
      rw [takeDigitsRun_append t htdig rest (takeDigitsRun_stop hr)]
      show checkIntEnd (charsToNat (c :: t)) rest = some (n, rest)
      have hval : charsToNat (c :: t) = n := by
        rw [← hcons]
        exact charsToNat_natDecChars n
      rw [hval]
      exact checkIntEnd_delim n rest hr
    · rename_i x1 heq
      exact absurd heq (by simp)

/-- Scanning the rendering of an integer recovers it, for a remainder that
cannot extend the number. -/
theorem parseNum_intChars (i : Int) (rest : List Char)
    (hr : numDelim rest = true) :
    parseNum (intChars i ++ rest) = some (i, rest) := by
  by_cases hneg : i < 0
  · have : intChars i = '-' :: natDecChars i.natAbs := by
      unfold intChars
      rw [if_pos hneg]
    rw [this, List.cons_append]
    show (parseUNum (natDecChars i.natAbs ++ rest)).map _ = _
    rw [parseUNum_natDecChars _ _ hr]
    simp only [Option.map_some']
    congr 1
    refine Prod.ext ?_ rfl
    show -(i.natAbs : Int) = i
    omega
  · have : intChars i = natDecChars i.natAbs := by
      unfold intChars
      rw [if_neg hneg]
    rw [this]
    obtain ⟨c, t, hcons, hdig, -⟩ := natDecChars_head i.natAbs
    rw [hcons, List.cons_append]
    unfold parseNum
    split
    · rename_i rest2 heq
      injection heq with hc ht
      exact absurd hc (isDigitCh_ne c hdig).2.1
    · rw [← List.cons_append, ← hcons, parseUNum_natDecChars _ _ hr]
      simp only [Option.map_some']
      congr 1
      refine Prod.ext ?_ rfl
      show ((i.natAbs : Nat) : Int) = i
      omega

/-- Skipping whitespace is the identity on non-whitespace-headed input. -/
theorem skipWs_not_ws {c : Char} (t : List Char) (h : jsonWs c = false) :
    skipWs (c :: t) = c :: t := by
  unfold skipWs
  rw [h]
  rfl

/-- Every dumped value starts with a non-whitespace character that closes
neither an array nor an object, and only `null` starts with an `n`. -/
theorem dumpVal_head (j : Json) :
    ∃ c t, dumpVal j = c :: t ∧ jsonWs c = false ∧ c ≠ ']' ∧ c ≠ '}' ∧
      (j ≠ .null → c ≠ 'n') := by
  match j with
  | .null => exact ⟨'n', _, rfl, by decide, by decide, by decide,
      fun h => absurd rfl h⟩
  | .bool true => exact ⟨'t', _, rfl, by decide, by decide, by decide,
      fun _ => by decide⟩
  | .bool false => exact ⟨'f', _, rfl, by decide, by decide, by decide,
      fun _ => by decide⟩
  | .str s => exact ⟨'"', _, rfl, by decide, by decide, by decide,
      fun _ => by decide⟩
  | .arr xs => exact ⟨'[', _, rfl, by decide, by decide, by decide,
      fun _ => by decide⟩
  | .obj ms => exact ⟨'{', _, rfl, by decide, by decide, by decide,
      fun _ => by decide⟩
  | .num i =>
      show ∃ c t, intChars i = c :: t ∧ _
      unfold intChars
      by_cases hneg : i < 0
      · rw [if_pos hneg]
        exact ⟨'-', _, rfl, by decide, by decide, by decide,
          fun _ => by decide⟩
      · rw [if_neg hneg]
        obtain ⟨c, t, hcons, hdig, -⟩ := natDecChars_head i.natAbs
        obtain ⟨hws, -, hn, -, -, -, -, -, hbr, hbc, -, -, -⟩ :=
          isDigitCh_ne c hdig
        exact ⟨c, t, hcons, hws, hbr, hbc, fun _ => hn⟩

/-- A leading space is consumed before a value is scanned. -/
theorem parseVal_space (f : Nat) (cs : List Char) :
    parseVal f (' ' :: cs) = parseVal f cs := by
  cases f <;> rfl

/-- A leading space is consumed before an element list is scanned. -/
theorem parseElems_space (f : Nat) (cs : List Char) :
    parseElems f (' ' :: cs) = parseElems f cs := by
  cases f with
  | zero => rfl
  | succ f =>
      unfold parseElems
      rw [parseVal_space]

/-- A value whose input starts like a number is scanned through
`parseNum`. -/
theorem parseVal_to_parseNum (f : Nat) (c : Char) (t : List Char)
    (hws : jsonWs c = false) (hn : c ≠ 'n') (ht : c ≠ 't') (hf : c ≠ 'f')
    (hq : c ≠ '"') (hbk : c ≠ '[') (hbc : c ≠ '{')
    (hg : (c = '-' || isDigitCh c) = true) :
    parseVal (f + 1) (c :: t) =
      (parseNum (c :: t)).map fun (n, r2) => (Json.num n, r2) := by
  unfold parseVal
  rw [skipWs_not_ws t hws]
  simp [hn, ht, hf, hq, hbk, hbc, hg]

/-- The array branch reduces to `parseElems` when the element list does not
begin with a closing bracket. -/
theorem parseVal_to_parseElems (f : Nat) (c : Char) (t : List Char)
    (hws : jsonWs c = false) (hbr : c ≠ ']') :
    parseVal (f + 1) ('[' :: (c :: t)) =
      (parseElems f (c :: t)).map fun (xs, r2) => (Json.arr xs, r2) := by
  unfold parseVal
  rw [@skipWs_not_ws '[' (c :: t) (by decide)]
  have h1 : skipWs (c :: t) = c :: t := skipWs_not_ws t hws
  simp [h1, hbr]

/-- A single element dumps as the bare value. -/
theorem dumpElems_single (x : Json) : dumpElems [x] = dumpVal x := rfl

/-- Two or more elements dump with the `", "` item separator. -/
theorem dumpElems_cons2 (x y : Json) (ys : List Json) :
    dumpElems (x :: y :: ys) = dumpVal x ++ ',' :: ' ' :: dumpElems (y :: ys) :=
  rfl

/-- A single member dumps as `key: value`. -/
theorem dumpMembers_single (k : String) (v : Json) :
    dumpMembers [(k, v)] = dumpStr k ++ ':' :: ' ' :: dumpVal v := rfl

/-- Two or more members dump with the `", "` item separator. -/
theorem dumpMembers_cons2 (k : String) (v : Json) (m : String × Json)
    (ms : List (String × Json)) :
    dumpMembers ((k, v) :: m :: ms) =
      dumpStr k ++ ':' :: ' ' :: dumpVal v ++ ',' :: ' ' ::
        dumpMembers (m :: ms) := rfl

/-- A dumped nonempty element list starts like its first value. -/
theorem dumpElems_head (x : Json) (xs : List Json) :
    ∃ c T, dumpElems (x :: xs) = c :: T ∧ jsonWs c = false ∧ c ≠ ']' := by
  obtain ⟨c, t, hcons, hws, hbr, -, -⟩ := dumpVal_head x
  match xs with
  | [] => exact ⟨c, t, by rw [dumpElems_single, hcons], hws, hbr⟩
  | y :: ys =>
      exact ⟨c, t ++ ',' :: ' ' :: dumpElems (y :: ys),
        by rw [dumpElems_cons2, hcons]; rfl, hws, hbr⟩

/-- A dumped nonempty member list starts with the key's opening quote. -/
theorem dumpMembers_head (k : String) (v : Json)
    (ms : List (String × Json)) :
    ∃ Z, dumpMembers ((k, v) :: ms) = '"' :: Z := by
  match ms with
  | [] => exact ⟨_, rfl⟩
  | m :: ms2 => exact ⟨_, rfl⟩

/-- The string branch of the value scanner, isolated. -/
theorem parseVal_str_bridge (f : Nat) (Y : List Char) :
    parseVal (f + 1) ('"' :: Y) =
      (parseStringBody Y).map fun (cs2, r2) => (Json.str ⟨cs2⟩, r2) := rfl

/-- The object branch of the value scanner on a quote-headed member list,
isolated. -/
theorem parseVal_obj_bridge (f : Nat) (Z : List Char) :
    parseVal (f + 1) ('{' :: ('"' :: Z)) =
      (parseMembers f ('"' :: Z)).map fun (ms, r2) => (Json.obj ms, r2) := rfl

/-- The member scanner on a quote-headed input, isolated. -/
theorem parseMembers_bridge (f : Nat) (B : List Char) :
    parseMembers (f + 1) ('"' :: B) =
      (match parseStringBody B with
        | none => none
        | some (k2, r1) =>
            match skipWs r1 with
            | ':' :: r2 =>
                match parseVal f r2 with
                | none => none
                | some (v2, r3) =>
                    match skipWs r3 with
                    | ',' :: r4 =>
                        (parseMembers f (skipWs r4)).map
                          fun (ms3, r5) => ((⟨k2⟩, v2) :: ms3, r5)
                    | '}' :: r4 => some ([(⟨k2⟩, v2)], r4)
                    | _ => none
            | _ => none) := rfl

mutual

/-- Scanning a dumped value recovers it: the `json.loads` model inverts the
`json.dumps` model, given fuel beyond the document length and a remainder
that cannot extend a number token. -/
theorem parseVal_dumpVal : ∀ (j : Json) (f : Nat) (rest : List Char),
    (dumpVal j).length < f → numDelim rest = true →
    parseVal f (dumpVal j ++ rest) = some (j, rest)
  | .null, f, rest, hf, _ => by
      cases f with
      | zero => exact absurd hf (by decide)
      | succ f => rfl
  | .bool true, f, rest, hf, _ => by
      cases f with
      | zero => exact absurd hf (by decide)
      | succ f => rfl
  | .bool false, f, rest, hf, _ => by
      cases f with
      | zero => exact absurd hf (by decide)
      | succ f => rfl
  | .num i, f, rest, hf, hr => by
      cases f with
      | zero => exact absurd hf (Nat.not_lt_zero _)
      | succ f =>
          by_cases hneg : i < 0
          · have hcons : dumpVal (.num i) = '-' :: natDecChars i.natAbs := by
              show intChars i = _
              unfold intChars
              rw [if_pos hneg]
            rw [hcons, List.cons_append,
              parseVal_to_parseNum f '-' _ (by decide) (by decide) (by decide)
                (by decide) (by decide) (by decide) (by decide) (by decide),
              ← List.cons_append, ← hcons]
            show (parseNum (intChars i ++ rest)).map _ = _
            rw [parseNum_intChars i rest hr]
            rfl
          · have hpos : dumpVal (.num i) = natDecChars i.natAbs := by
              show intChars i = _
              unfold intChars
              rw [if_neg hneg]
            obtain ⟨c, t, hcons, hdig, -⟩ := natDecChars_head i.natAbs
            obtain ⟨hws, hmin, hn, ht, hfc, hq, hbk, hbc, -, -, -, -, -⟩ :=
              isDigitCh_ne c hdig
            have hpos2 : intChars i = natDecChars i.natAbs := by
              unfold intChars
              rw [if_neg hneg]
            rw [hpos, hcons, List.cons_append,
              parseVal_to_parseNum f c _ hws hn ht hfc hq hbk hbc
                (by simp [hdig]),
              ← List.cons_append, ← hcons, ← hpos2,
              parseNum_intChars i rest hr]
            rfl
  | .str s, f, rest, hf, _ => by
      cases f with
      | zero => exact absurd hf (Nat.not_lt_zero _)
      | succ f =>
          have harg : dumpVal (.str s) ++ rest =
              '"' :: (s.toList.flatMap escChar ++ '"' :: rest) := by
            show dumpStr s ++ rest = _
            unfold dumpStr
            simp
          rw [harg, parseVal_str_bridge, parseStringBody_dump]
          rfl
  | .arr [], f, rest, hf, _ => by
      cases f with
      | zero => exact absurd hf (by decide)
      | succ f => rfl
  | .arr (x :: xs), f, rest, hf, hr => by
      cases f with
      | zero => exact absurd hf (Nat.not_lt_zero _)
      | succ f =>
          obtain ⟨c0, T, hcons, hws, hbr⟩ := dumpElems_head x xs
          have harg : dumpVal (.arr (x :: xs)) ++ rest =
              '[' :: (c0 :: (T ++ ']' :: rest)) := by
            show ('[' :: (dumpElems (x :: xs) ++ [']'])) ++ rest = _
            rw [hcons]
            simp
          rw [harg, parseVal_to_parseElems f c0 _ hws hbr]
          have hback : c0 :: (T ++ ']' :: rest) =
              dumpElems (x :: xs) ++ ']' :: rest := by
            rw [hcons]
            simp
          rw [hback]
          have hfe : (dumpElems (x :: xs)).length + 1 < f := by
            have : (dumpVal (.arr (x :: xs))).length =
                (dumpElems (x :: xs)).length + 2 := by
              show ('[' :: (dumpElems (x :: xs) ++ [']'])).length = _
              simp
            omega
          rw [parseElems_dumpElems x xs f rest hfe]
          rfl
  | .obj [], f, rest, hf, _ => by
      cases f with
      | zero => exact absurd hf (by decide)
      | succ f => rfl
  | .obj ((k, v) :: ms), f, rest, hf, hr => by
      cases f with
      | zero => exact absurd hf (Nat.not_lt_zero _)
      | succ f =>
          obtain ⟨Z, hcons⟩ := dumpMembers_head k v ms
          have harg : dumpVal (.obj ((k, v) :: ms)) ++ rest =
              '{' :: ('"' :: (Z ++ '}' :: rest)) := by
            show ('{' :: (dumpMembers ((k, v) :: ms) ++ ['}'])) ++ rest = _
            rw [hcons]
            simp
          rw [harg, parseVal_obj_bridge]
          have hback : '"' :: (Z ++ '}' :: rest) =
              dumpMembers ((k, v) :: ms) ++ '}' :: rest := by
            rw [hcons]
            simp
          rw [hback]
          have hfm : (dumpMembers ((k, v) :: ms)).length + 1 < f := by
            have : (dumpVal (.obj ((k, v) :: ms))).length =
                (dumpMembers ((k, v) :: ms)).length + 2 := by
              show ('{' :: (dumpMembers ((k, v) :: ms) ++ ['}'])).length = _
              simp
            omega
          rw [parseMembers_dumpMembers (k, v) ms f rest hfm]
          rfl
termination_by j _ _ _ _ => sizeOf j

/-- Scanning a dumped nonempty element list up to the closing bracket
recovers the elements. -/
theorem parseElems_dumpElems : ∀ (x : Json) (xs : List Json) (f : Nat)
    (rest : List Char), (dumpElems (x :: xs)).length + 1 < f →
    parseElems f (dumpElems (x :: xs) ++ ']' :: rest) = some (x :: xs, rest)
  | x, [], f, rest, hf => by
      cases f with
      | zero => exact absurd hf (Nat.not_lt_zero _)
      | succ f =>
          unfold parseElems
          rw [dumpElems_single] at hf ⊢
          rw [parseVal_dumpVal x f (']' :: rest) (by omega) rfl]
          rfl
  | x, y :: ys, f, rest, hf => by
      cases f with
      | zero => exact absurd hf (Nat.not_lt_zero _)
      | succ f =>
          have hlen : (dumpElems (x :: y :: ys)).length =
              (dumpVal x).length + 2 + (dumpElems (y :: ys)).length := by
            rw [dumpElems_cons2]
            simp
            omega
          have harg : dumpElems (x :: y :: ys) ++ ']' :: rest =
              dumpVal x ++ ',' :: ' ' ::
                (dumpElems (y :: ys) ++ ']' :: rest) := by
            rw [dumpElems_cons2]
            simp
          unfold parseElems
          rw [harg,
            parseVal_dumpVal x f
              (',' :: ' ' :: (dumpElems (y :: ys) ++ ']' :: rest))
              (by omega) rfl]
          show (parseElems f
            (' ' :: (dumpElems (y :: ys) ++ ']' :: rest))).map _ = _
          rw [parseElems_space,
            parseElems_dumpElems y ys f rest (by omega)]
          rfl
termination_by x xs _ _ _ => sizeOf x + sizeOf xs

/-- Scanning a dumped nonempty member list up to the closing brace recovers
the members. -/
theorem parseMembers_dumpMembers : ∀ (kv : String × Json)
    (ms : List (String × Json)) (f : Nat) (rest : List Char),
    (dumpMembers (kv :: ms)).length + 1 < f →
    parseMembers f (dumpMembers (kv :: ms) ++ '}' :: rest) =
      some (kv :: ms, rest)
  | (k, v), [], f, rest, hf => by
      cases f with
      | zero => exact absurd hf (Nat.not_lt_zero _)
      | succ f =>
          have hlen : (dumpMembers [(k, v)]).length =
              (dumpStr k).length + 2 + (dumpVal v).length := by
            rw [dumpMembers_single]
            simp
            omega
          have harg : dumpMembers [(k, v)] ++ '}' :: rest =
              '"' :: (k.toList.flatMap escChar ++ '"' ::
                (':' :: ' ' :: (dumpVal v ++ '}' :: rest))) := by
            rw [dumpMembers_single]
            simp [dumpStr]
          rw [harg, parseMembers_bridge, parseStringBody_dump]
          show (match skipWs (':' :: ' ' :: (dumpVal v ++ '}' :: rest)) with
            | ':' :: r2 =>
                match parseVal f r2 with
                | none => none
                | some (val, r3) =>
                    match skipWs r3 with
                    | ',' :: r4 =>
                        (parseMembers f (skipWs r4)).map
                          fun (ms2, r5) => ((⟨k.toList⟩, val) :: ms2, r5)
                    | '}' :: r4 => some ([(⟨k.toList⟩, val)], r4)
                    | _ => none
            | _ => none) = some ([(k, v)], rest)
          rw [@skipWs_not_ws ':' _ (by decide)]
          show (match parseVal f (' ' :: (dumpVal v ++ '}' :: rest)) with
            | none => none
            | some (val, r3) =>
                match skipWs r3 with
                | ',' :: r4 =>
                    (parseMembers f (skipWs r4)).map
                      fun (ms2, r5) => ((⟨k.toList⟩, val) :: ms2, r5)
                | '}' :: r4 => some ([(⟨k.toList⟩, val)], r4)
                | _ => none) = some ([(k, v)], rest)
          rw [parseVal_space,
            parseVal_dumpVal v f ('}' :: rest) (by omega) rfl]
          rfl
  | (k, v), (m1, m2) :: ms2, f, rest, hf => by
      cases f with
      | zero => exact absurd hf (Nat.not_lt_zero _)
      | succ f =>
          have hlen : (dumpMembers ((k, v) :: (m1, m2) :: ms2)).length =
              (dumpStr k).length + 2 + (dumpVal v).length + 2 +
                (dumpMembers ((m1, m2) :: ms2)).length := by
            rw [dumpMembers_cons2]
            simp
            omega
          have harg : dumpMembers ((k, v) :: (m1, m2) :: ms2) ++ '}' :: rest =
              '"' :: (k.toList.flatMap escChar ++ '"' ::
                (':' :: ' ' :: (dumpVal v ++ ',' :: ' ' ::
                  (dumpMembers ((m1, m2) :: ms2) ++ '}' :: rest)))) := by
            rw [dumpMembers_cons2]
            simp [dumpStr]
          rw [harg, parseMembers_bridge, parseStringBody_dump]
          show (match skipWs (':' :: ' ' :: (dumpVal v ++ ',' :: ' ' ::
              (dumpMembers ((m1, m2) :: ms2) ++ '}' :: rest))) with
            | ':' :: r2 =>
                match parseVal f r2 with
                | none => none
                | some (val, r3) =>
                    match skipWs r3 with
                    | ',' :: r4 =>
                        (parseMembers f (skipWs r4)).map
                          fun (msx, r5) => ((⟨k.toList⟩, val) :: msx, r5)
                    | '}' :: r4 => some ([(⟨k.toList⟩, val)], r4)
                    | _ => none
            | _ => none) = some ((k, v) :: (m1, m2) :: ms2, rest)
          rw [@skipWs_not_ws ':' _ (by decide)]
          show (match parseVal f (' ' :: (dumpVal v ++ ',' :: ' ' ::
              (dumpMembers ((m1, m2) :: ms2) ++ '}' :: rest))) with
            | none => none
            | some (val, r3) =>
                match skipWs r3 with
                | ',' :: r4 =>
                    (parseMembers f (skipWs r4)).map
                      fun (msx, r5) => ((⟨k.toList⟩, val) :: msx, r5)
                | '}' :: r4 => some ([(⟨k.toList⟩, val)], r4)
                | _ => none) = some ((k, v) :: (m1, m2) :: ms2, rest)
          rw [parseVal_space,
            parseVal_dumpVal v f
              (',' :: ' ' :: (dumpMembers ((m1, m2) :: ms2) ++ '}' :: rest))
              (by omega) rfl]
          show (parseMembers f (skipWs (' ' ::
              (dumpMembers ((m1, m2) :: ms2) ++ '}' :: rest)))).map _ = _
          obtain ⟨Z2, hz2⟩ := dumpMembers_head m1 m2 ms2
          have hskip : skipWs (' ' :: (dumpMembers ((m1, m2) :: ms2) ++
              '}' :: rest)) = dumpMembers ((m1, m2) :: ms2) ++ '}' :: rest := by
            show skipWs (dumpMembers ((m1, m2) :: ms2) ++ '}' :: rest) = _
            rw [hz2]
            exact @skipWs_not_ws '"' _ (by decide)
          rw [hskip, parseMembers_dumpMembers (m1, m2) ms2 f rest (by omega)]
          rfl
termination_by kv ms _ _ _ => sizeOf kv + sizeOf ms

end

/-- The `json.loads` model inverts the `json.dumps` model on every value. -/
theorem loads_dumps (j : Json) : loads (dumps j) = some j := by
  have h := parseVal_dumpVal j ((dumpVal j).length + 2) [] (by omega) rfl
  rw [List.append_nil] at h
  show (match parseVal ((dumpVal j).length + 2) (dumpVal j) with
    | some (j2, r) => if (skipWs r).isEmpty then some j2 else none
    | none => none) = some j
  rw [h]
  rfl

/-- No dumped non-null value is the four-character line `null`. -/
theorem dumps_ne_null (j : Json) (h : j ≠ .null) : dumps j ≠ "null" := by
  obtain ⟨c, t, hcons, -, -, -, hn⟩ := dumpVal_head j
  intro heq
  have hd := congrArg String.data heq
  have hd2 : dumpVal j = ['n', 'u', 'l', 'l'] := hd
  rw [hcons] at hd2
  injection hd2 with h1 h2
  exact (hn h) h1

/-- Claim C8.  For every JSON-serializable request object (any value other
than Python `None`, e.g. the spec's `{key: "K", fields: {"a": ["1","2"]}}`),
writing it with `writejson` and reading the identical line back with
`readjson` — a loopback echo — yields an object deeply equal to the input:
the line is `json.dumps obj`, which is never the literal `null` for a
non-`None` object, so `readjson` parses it, and the scanner inverts the
serializer. -/
theorem writejson_readjson_roundtrip (obj : Json) (h : obj ≠ .null) :
    readjsonLine (writejsonLine obj) = .ok obj := by
  have hw : writejsonLine obj = some (dumps obj) := by
    cases obj with
    | null => exact absurd rfl h
    | bool b => rfl
    | num i => rfl
    | str s => rfl
    | arr xs => rfl
    | obj ms => rfl
  rw [hw]
  show (if dumps obj = "null" then Except.ok (Json.str (dumps obj))
    else (match loads (dumps obj) with
      | some j => Except.ok j
      | none => Except.error PyErr.jsonDecodeError)) = Except.ok obj
  rw [if_neg (dumps_ne_null obj h), loads_dumps]

/-- Witness for claim C8 at the spec's example request object. -/
theorem writejson_readjson_roundtrip_witness :
    exRequest ≠ .null ∧ readjsonLine (writejsonLine exRequest) = .ok exRequest :=
  ⟨fun h => Json.noConfusion h,
    writejson_readjson_roundtrip exRequest fun h => Json.noConfusion h⟩

/-- Claim C5 (counterexample to the claim as stated).  The two "no object"
cases of `readjson` do not produce the same result: a raw `None` line is
returned as Python `None`, but a line holding the JSON literal `null` is
returned as the unparsed string `'null'`, which is a different value — so
`readjson` does not return the none sentinel in the literal-`null` case and
the two cases are distinguishable. -/
theorem readjson_null_line_not_sentinel :
    readjsonLine (some "null") = .ok (.str "null") ∧
    readjsonLine none = .ok .null ∧
    (Except.ok (Json.str "null") : Except PyErr Json) ≠ .ok .null := by
  refine ⟨rfl, rfl, fun h => ?_⟩
  injection h with h2
  exact Json.noConfusion h2

/-- Claim C5 (amended).  `readjson` returns an unparsed result in exactly
two cases: a raw `None` from the underlying channel is returned as Python
`None`, and a line equal to the JSON literal `null` is returned as the raw
string `'null'` (not as a parsed value, and not as the none sentinel);
every other line is parsed with `json.loads`, whose value is returned (a
malformed line raises `JSONDecodeError`). -/
theorem readjson_characterization :
    readjsonLine none = .ok .null ∧
    readjsonLine (some "null") = .ok (.str "null") ∧
    ∀ s : String, s ≠ "null" →
      readjsonLine (some s) =
        (match loads s with
          | some j => .ok j
          | none => .error .jsonDecodeError) := by
  refine ⟨rfl, rfl, fun s hs => ?_⟩
  show (if s = "null" then Except.ok (Json.str s)
    else (match loads s with
      | some j => Except.ok j
      | none => Except.error PyErr.jsonDecodeError)) =
    (match loads s with
      | some j => Except.ok j
      | none => Except.error PyErr.jsonDecodeError)
  rw [if_neg hs]

/-- Witness for the amended claim C5 at the line `{}`. -/
theorem readjson_characterization_witness :
    ("{}" : String) ≠ "null" ∧ readjsonLine (some "{}") = .ok (.obj []) := by
  have h := readjson_characterization.2.2 "{}" (by decide)
  exact ⟨by decide, by rw [h]; rfl⟩

/-- Collecting from a queue of real lines yields exactly those lines. -/
theorem collectedLines_map_some (L : List String) :
    collectedLines (L.map some) = L := by
  induction L with
  | nil => rfl
  | cons l ls ih =>
      simp [collectedLines] at ih ⊢
      exact ih

/-- Writing a list of lines to a live writer queue appends them in order. -/
theorem writelines_alive : ∀ (L : List String) (p : Process),
    p.stdinQ.alive = true →
    p.writelines L =
      .ok { p with stdinQ := ⟨p.stdinQ.items ++ L.map some, true⟩ } := by
  intro L
  induction L with
  | nil =>
      intro p halive
      obtain ⟨args, ⟨items, alive⟩, so, se, poll, cf, cons⟩ := p
      simp only at halive
      subst halive
      show Except.ok _ = _
      simp
  | cons l ls ih =>
      intro p halive
      obtain ⟨args, ⟨items, alive⟩, so, se, poll, cf, cons⟩ := p
      simp only at halive
      subst halive
      have hput : Process.writeline
          ⟨args, ⟨items, true⟩, so, se, poll, cf, cons⟩ (some l) =
          .ok ⟨args, ⟨items ++ [some l], true⟩, so, se, poll, cf, cons⟩ := rfl
      unfold Process.writelines
      rw [hput]
      show Process.writelines
        ⟨args, ⟨items ++ [some l], true⟩, so, se, poll, cf, cons⟩ ls = _
      rw [ih _ rfl]
      simp

/-- The child model consumes a queue of real lines in order, answering one
response per line. -/
theorem childRun_all_some : ∀ (ls : List String) (p : Process),
    p.stdinQ = ⟨ls.map some, true⟩ →
    p.childRun =
      { p with
          stdinQ := ⟨[], true⟩
          consumed := p.consumed ++ ls
          stdoutQ := ⟨p.stdoutQ.items ++ ls.map (fun l => some (p.childF l)),
            p.stdoutQ.alive⟩ } := by
  intro ls
  induction ls with
  | nil =>
      intro p hq
      obtain ⟨args, si, ⟨so, soa⟩, se, poll, cf, cons⟩ := p
      simp only at hq
      subst hq
      rw [Process.childRun]
      simp
  | cons l ls ih =>
      intro p hq
      obtain ⟨args, si, ⟨so, soa⟩, se, poll, cf, cons⟩ := p
      simp only at hq
      subst hq
      rw [Process.childRun]
      simp only [List.map_cons]
      rw [ih _ rfl]
      simp

/-- One request on a live well-behaved channel: the response is the
child's answer to exactly that request, and the channel returns to an
idle live state with the request appended to the child's consumption
log. -/
theorem batchCall_live (b : GitAnnexBatchProcess) (p : Process)
    (spawn : Except PyErr Process) (l : String)
    (hb : b._process = some p) (hpoll : p.poll = none)
    (hsi : p.stdinQ = ⟨[], true⟩) (hso : p.stdoutQ = ⟨[], true⟩) :
    b.call spawn (some l) =
      .ok (some (p.childF l),
        { b with _process := some ({ p with stdinQ := ⟨[], true⟩, stdoutQ := ⟨[], true⟩, consumed := p.consumed ++ [l] } : Process) }) := by
  have h1 : b.processGet spawn = .ok (p, b) := by
    unfold GitAnnexBatchProcess.processGet
    rw [hb]
    show (if p.poll = none then Except.ok (p, b)
      else b.processSpawn (some p) spawn) = _
    rw [if_pos hpoll]
  have hw : p.writeline (some l) =
      .ok ({ p with stdinQ := ⟨[some l], true⟩ } : Process) := by
    unfold Process.writeline LineWriterQueue.put
    rw [hsi]
    rfl
  have hcr : ({ p with stdinQ := ⟨[some l], true⟩ } : Process).childRun =
      ({ p with stdinQ := ⟨[], true⟩, consumed := p.consumed ++ [l], stdoutQ := ⟨[some (p.childF l)], true⟩ } : Process) := by
    rw [childRun_all_some [l] _ rfl]
    rw [hso]
    rfl
  have h2 : p.syncCall (some l) =
      .ok (some (p.childF l),
        ({ p with stdinQ := ⟨[], true⟩, consumed := p.consumed ++ [l], stdoutQ := ⟨[], true⟩ } : Process)) := by
    unfold Process.syncCall
    rw [hw]
    show ({ p with stdinQ := ⟨[some l], true⟩ } : Process).childRun.readline
      "stdout" = _
    rw [hcr]
    rw [Process.readline_stdout]
  have h3 : ({ p with stdinQ := ⟨[], true⟩, consumed := p.consumed ++ [l], stdoutQ := ⟨[], true⟩ } : Process).check =
      .ok (none, ({ p with stdinQ := ⟨[], true⟩, consumed := p.consumed ++ [l], stdoutQ := ⟨[], true⟩ } : Process)) := by
    unfold Process.check
    rw [hpoll]
  unfold GitAnnexBatchProcess.call
  rw [h1]
  show (p.syncCall (some l)).bind _ = _
  rw [h2]
  show (match ({ p with stdinQ := ⟨[], true⟩, consumed := p.consumed ++ [l], stdoutQ := ⟨[], true⟩ } : Process).check with
    | Except.error (PyErr.calledProcessError rc out err) =>
        (match ({ p with stdinQ := ⟨[], true⟩, consumed := p.consumed ++ [l], stdoutQ := ⟨[], true⟩ } : Process).writeline none with
          | Except.ok _ =>
              (Except.error (PyErr.calledProcessError rc out err) :
                Except PyErr (Option String × GitAnnexBatchProcess))
          | Except.error e3 => Except.error e3)
    | Except.error e => Except.error e
    | Except.ok (done, p4) =>
        match (some l : Option String), done with
        | some _, some _ =>
            (match p4.writeline none with
              | Except.ok p5 =>
                  Except.ok (some (p.childF l),
                    { b with _process := some p5 })
              | Except.error e3 => Except.error e3)
        | _, _ =>
            Except.ok (some (p.childF l),
              { b with _process := some p4 })) =
    Except.ok (some (p.childF l),
      { b with _process := some ({ p with stdinQ := ⟨[], true⟩, stdoutQ := ⟨[], true⟩, consumed := p.consumed ++ [l] } : Process) })
  rw [h3]

/-- Claim C2.  For every sequence of requests submitted to one
`GitAnnexBatchProcess` by a single serialized caller against a live,
well-behaved child process (one response line per request line, modelled
by `childF`), the responses come back one per request, in submission
order: the i-th response is the child's answer to the i-th request. -/
theorem batch_ordering (rs : List String) (b : GitAnnexBatchProcess)
    (p : Process) (spawn : Except PyErr Process)
    (hb : b._process = some p) (hpoll : p.poll = none)
    (hsi : p.stdinQ = ⟨[], true⟩) (hso : p.stdoutQ = ⟨[], true⟩) :
    ∃ b2, b.runBatch spawn rs =
      .ok (rs.map fun r => some (p.childF r), b2) := by
  induction rs generalizing b p with
  | nil =>
      refine ⟨b, ?_⟩
      rw [GitAnnexBatchProcess.runBatch]
      rfl
  | cons l ls ih =>
      obtain ⟨b2, hb2⟩ := ih
        { b with _process := some ({ p with stdinQ := ⟨[], true⟩, stdoutQ := ⟨[], true⟩, consumed := p.consumed ++ [l] } : Process) }
        ({ p with stdinQ := ⟨[], true⟩, stdoutQ := ⟨[], true⟩, consumed := p.consumed ++ [l] } : Process)
        rfl hpoll rfl rfl
      refine ⟨b2, ?_⟩
      rw [GitAnnexBatchProcess.runBatch]
      rw [batchCall_live b p spawn l hb hpoll hsi hso]
      show (GitAnnexBatchProcess.runBatch _ spawn ls).bind _ = _
      rw [hb2]
      rfl

/-- A concrete idle live batch channel whose child echoes requests with a
suffix, for the ordering witness. -/
def liveEchoProc : Process :=
  ⟨"('git', 'annex', 'lookupkey', '--batch')", ⟨[], true⟩, ⟨[], true⟩,
    ⟨[], true⟩, none, fun s => s ++ "!", []⟩

/-- The batch state owning `liveEchoProc`. -/
def liveEchoBatch : GitAnnexBatchProcess :=
  ⟨"('git', 'annex', 'lookupkey', '--batch')", "/repo",
    some liveEchoProc, none⟩

/-- Witness for claim C2: two requests on the concrete live channel come
back in order, each the child's answer to its own request. -/
theorem batch_ordering_witness :
    ∃ b2, liveEchoBatch.runBatch (.error .nameError) ["a", "b"] =
      .ok ([some "a!", some "b!"], b2) := by
  obtain ⟨b2, h⟩ := batch_ordering ["a", "b"] liveEchoBatch liveEchoProc
    (.error .nameError) rfl rfl rfl rfl
  exact ⟨b2, h⟩

/-- Draining the dead process's stdin queue returns its unflushed lines in
order. -/
theorem readlines_stdin_drain (dp : Process) (L : List String)
    (hdq : dp.stdinQ.items = L.map some) :
    ∃ dp1, dp.readlines "stdin" none = .ok (L, dp1) := by
  obtain ⟨dp1, hdrain⟩ := readlinesGo_stdin dp.stdinQ.items
    (dp.stdinQ.items.length + dp.stdoutQ.items.length +
      dp.stderrQ.items.length + 1) none dp rfl (by omega)
  refine ⟨dp1, ?_⟩
  show Process.readlinesGo _ none dp "stdin" = _
  rw [hdrain, hdq, collectedLines_map_some]
  rfl

/-- Claim C1.  When the current child process of a `GitAnnexBatchProcess`
has died, the next query spawns a fresh process and copies the stdin lines
the dead process's writer queue had not yet flushed, in their original
order, into the new process's writer queue before the new request line is
sent: after the `process` property runs, the new writer queue holds
exactly the replayed lines, and after the query itself the child has
consumed the replayed lines followed by the new request, in that order. -/
theorem batch_restart_replays (b : GitAnnexBatchProcess)
    (dp fresh : Process) (L : List String) (line : String) (rc : Int)
    (hb : b._process = some dp) (hdead : dp.poll = some rc)
    (hdq : dp.stdinQ.items = L.map some)
    (hfpoll : fresh.poll = none) (hfsi : fresh.stdinQ = ⟨[], true⟩)
    (hfso : fresh.stdoutQ = ⟨[], true⟩) (hfc : fresh.consumed = []) :
    (∃ p1 b1, b.processGet (.ok fresh) = .ok (p1, b1) ∧
      p1.stdinQ.items = L.map some ∧ b1._process = some p1) ∧
    (∃ out b2 pf, b.call (.ok fresh) (some line) = .ok (out, b2) ∧
      b2._process = some pf ∧ pf.consumed = L ++ [line] ∧
      pf.stdinQ.items = []) := by
  obtain ⟨dp1, hdrain⟩ := readlines_stdin_drain dp L hdq
  have hcheck : fresh.check = .ok (none, fresh) := by
    unfold Process.check
    rw [hfpoll]
  have hwl : fresh.writelines L =
      .ok ({ fresh with stdinQ := ⟨L.map some, true⟩ } : Process) := by
    rw [writelines_alive L fresh (by rw [hfsi])]
    rw [hfsi]
    rfl
  have hget : b.processGet (.ok fresh) =
      .ok (({ fresh with stdinQ := ⟨L.map some, true⟩ } : Process),
        { b with _process := some ({ fresh with stdinQ := ⟨L.map some, true⟩ } : Process), _dead_process := some dp1 }) := by
    unfold GitAnnexBatchProcess.processGet
    rw [hb]
    show (if dp.poll = none then Except.ok (dp, b)
      else b.processSpawn (some dp) (.ok fresh)) = _
    rw [if_neg (by rw [hdead]; simp)]
    unfold GitAnnexBatchProcess.processSpawn
    simp only [hcheck, hdrain, hwl]
  refine ⟨⟨_, _, hget, rfl, rfl⟩, ?_⟩
  -- the query after the respawn
  have hw2 : ({ fresh with stdinQ := ⟨L.map some, true⟩ } : Process).writeline
      (some line) =
      .ok ({ fresh with stdinQ := ⟨(L ++ [line]).map some, true⟩ } : Process) := by
    unfold Process.writeline LineWriterQueue.put
    simp
  have hcr : ({ fresh with stdinQ := ⟨(L ++ [line]).map some, true⟩ } : Process).childRun =
      ({ fresh with stdinQ := ⟨[], true⟩, consumed := L ++ [line], stdoutQ := ⟨(L ++ [line]).map (fun x => some (fresh.childF x)), true⟩ } : Process) := by
    rw [childRun_all_some (L ++ [line]) _ rfl]
    rw [hfso, hfc]
    rfl
  have hex : ∃ a as, L ++ [line] = a :: as := by
    cases L with
    | nil => exact ⟨line, [], rfl⟩
    | cons x xs => exact ⟨x, xs ++ [line], rfl⟩
  obtain ⟨a, as, hLL⟩ := hex
  have hsync : ({ fresh with stdinQ := ⟨L.map some, true⟩ } : Process).syncCall (some line) =
      .ok (some (fresh.childF a),
        ({ fresh with stdinQ := ⟨[], true⟩, consumed := L ++ [line], stdoutQ := ⟨as.map (fun x => some (fresh.childF x)), true⟩ } : Process)) := by
    unfold Process.syncCall
    rw [hw2]
    show ({ fresh with stdinQ := ⟨(L ++ [line]).map some, true⟩ } : Process).childRun.readline "stdout" = _
    rw [hcr]
    rw [Process.readline_stdout]
    rw [hLL]
    rfl
  have hcheck2 : ({ fresh with stdinQ := ⟨[], true⟩, consumed := L ++ [line], stdoutQ := ⟨as.map (fun x => some (fresh.childF x)), true⟩ } : Process).check =
      .ok (none, ({ fresh with stdinQ := ⟨[], true⟩, consumed := L ++ [line], stdoutQ := ⟨as.map (fun x => some (fresh.childF x)), true⟩ } : Process)) := by
    unfold Process.check
    rw [hfpoll]
  refine ⟨some (fresh.childF a),
    { b with _process := some ({ fresh with stdinQ := ⟨[], true⟩, consumed := L ++ [line], stdoutQ := ⟨as.map (fun x => some (fresh.childF x)), true⟩ } : Process), _dead_process := some dp1 },
    ({ fresh with stdinQ := ⟨[], true⟩, consumed := L ++ [line], stdoutQ := ⟨as.map (fun x => some (fresh.childF x)), true⟩ } : Process),
    ?_, rfl, rfl, rfl⟩
  unfold GitAnnexBatchProcess.call
  rw [hget]
  show (({ fresh with stdinQ := ⟨L.map some, true⟩ } : Process).syncCall
    (some line)).bind _ = _
  rw [hsync]
  show (match ({ fresh with stdinQ := ⟨[], true⟩, consumed := L ++ [line], stdoutQ := ⟨as.map (fun x => some (fresh.childF x)), true⟩ } : Process).check with
    | Except.error (PyErr.calledProcessError rc2 out err) =>
        (match ({ fresh with stdinQ := ⟨[], true⟩, consumed := L ++ [line], stdoutQ := ⟨as.map (fun x => some (fresh.childF x)), true⟩ } : Process).writeline none with
          | Except.ok _ =>
              (Except.error (PyErr.calledProcessError rc2 out err) :
                Except PyErr (Option String × GitAnnexBatchProcess))
          | Except.error e3 => Except.error e3)
    | Except.error e => Except.error e
    | Except.ok (done, p4) =>
        match (some line : Option String), done with
        | some _, some _ =>
            (match p4.writeline none with
              | Except.ok p5 =>
                  Except.ok (some (fresh.childF a),
                    { b with _process := some p5, _dead_process := some dp1 })
              | Except.error e3 => Except.error e3)
        | _, _ =>
            Except.ok (some (fresh.childF a),
              { b with _process := some p4, _dead_process := some dp1 })) = _
  rw [hcheck2]

/-- Witness for claim C1: the dead channel's two queued request lines are
replayed to the fresh process and its child consumes them before the new
request. -/
theorem batch_restart_replays_witness :
    (∃ p1 b1, deadBatch.processGet (.ok freshProc) = .ok (p1, b1) ∧
      p1.stdinQ.items = (["q1", "q2"].map some) ∧ b1._process = some p1) ∧
    (∃ out b2 pf, deadBatch.call (.ok freshProc) (some "q3") =
        .ok (out, b2) ∧ b2._process = some pf ∧
      pf.consumed = ["q1", "q2"] ++ ["q3"] ∧ pf.stdinQ.items = []) :=
  batch_restart_replays deadBatch deadProc freshProc ["q1", "q2"] "q3" 1
    rfl rfl rfl rfl rfl rfl rfl

/-- Claim C6.  For one-shot invocations (`GitAnnexRunner.__call__`) and for
batch-process spawns (`GitAnnexBatchProcess.process`), a failure whose
stderr contains the not-in-a-git-repository message, or whose cause is a
missing executable or working directory (`FileNotFoundError` whose
`strerror` shows "No such file or directory:"), is re-raised as the
distinguished `NotAGitRepoError`; any other failure — and any success —
propagates unchanged. -/
theorem notagitrepo_classification (wd : String) (b : GitAnnexBatchProcess)
    (hwd : b.workdir = wd) (hb : b._process = none) :
    (∀ s, pyIn "No such file or directory:" s = true →
        runnerCall wd (.error (.fileNotFoundError s)) =
          .error (.notAGitRepoError ("Path '" ++ wd ++ "' does not exist.")) ∧
        b.processGet (.error (.fileNotFoundError s)) =
          .error (.notAGitRepoError ("Path '" ++ wd ++ "' does not exist."))) ∧
    (∀ s, pyIn "No such file or directory:" s = false →
        runnerCall wd (.error (.fileNotFoundError s)) =
          .error (.fileNotFoundError s) ∧
        b.processGet (.error (.fileNotFoundError s)) =
          .error (.fileNotFoundError s)) ∧
    (∀ rc out err, pyIn "git-annex: Not in a git repository" err = true →
        runnerCall wd (.error (.calledProcessError rc out err)) =
          .error (.notAGitRepoError
            ("Path '" ++ wd ++ "' is not in a git repository."))) ∧
    (∀ rc out err, pyIn "git-annex: Not in a git repository" err = false →
        runnerCall wd (.error (.calledProcessError rc out err)) =
          .error (.calledProcessError rc out err)) ∧
    (∀ np rc out err, np.check = .error (.calledProcessError rc out err) →
        (pyIn "git-annex: Not in a git repository" err = true →
          b.processGet (.ok np) =
            .error (.notAGitRepoError
              ("Path '" ++ wd ++ "' is not in a git repository."))) ∧
        (pyIn "git-annex: Not in a git repository" err = false →
          b.processGet (.ok np) = .error (.calledProcessError rc out err))) ∧
    (∀ e : PyErr, (∀ s, e ≠ .fileNotFoundError s) →
        (∀ rc out err, e ≠ .calledProcessError rc out err) →
        runnerCall wd (.error e) = .error e ∧
        b.processGet (.error e) = .error e) ∧
    (∀ c : CompletedProcess, runnerCall wd (.ok c) = .ok c) := by
  have hget : ∀ sp, b.processGet sp = b.processSpawn none sp := by
    intro sp
    unfold GitAnnexBatchProcess.processGet
    rw [hb]
  refine ⟨?_, ?_, ?_, ?_, ?_, ?_, ?_⟩
  · intro s hs
    constructor
    · unfold runnerCall
      simp [hs, hwd]
    · rw [hget]
      unfold GitAnnexBatchProcess.processSpawn
      simp [hs, hwd]
  · intro s hs
    constructor
    · unfold runnerCall
      simp [hs]
    · rw [hget]
      unfold GitAnnexBatchProcess.processSpawn
      simp [hs]
  · intro rc out err herr
    unfold runnerCall
    simp [herr, hwd]
  · intro rc out err herr
    unfold runnerCall
    simp [herr]
  · intro np rc out err hchk
    constructor
    · intro herr
      rw [hget]
      unfold GitAnnexBatchProcess.processSpawn
      simp [hchk, herr, hwd]
    · intro herr
      rw [hget]
      unfold GitAnnexBatchProcess.processSpawn
      simp [hchk, herr]
  · intro e hfnf hcpe
    constructor
    · cases e with
      | fileNotFoundError s => exact absurd rfl (hfnf s)
      | calledProcessError rc out err => exact absurd rfl (hcpe rc out err)
      | timeoutError m => rfl
      | brokenPipeError m => rfl
      | emptyError => rfl
      | nameError => rfl
      | notAGitRepoError m => rfl
      | valueError m => rfl
      | typeError m => rfl
      | jsonDecodeError => rfl
    · rw [hget]
      cases e with
      | fileNotFoundError s => exact absurd rfl (hfnf s)
      | calledProcessError rc out err => exact absurd rfl (hcpe rc out err)
      | timeoutError m => rfl
      | brokenPipeError m => rfl
      | emptyError => rfl
      | nameError => rfl
      | notAGitRepoError m => rfl
      | valueError m => rfl
      | typeError m => rfl
      | jsonDecodeError => rfl
  · intro c
    rfl

/-- Witness for claim C6 at concrete errors: a missing-path spawn failure
and a not-a-repository stderr both become `NotAGitRepoError`, for the
one-shot runner and the batch spawn alike, while an unrelated error passes
through. -/
theorem notagitrepo_classification_witness :
    runnerCall "/repo"
        (.error (.fileNotFoundError "No such file or directory: 'git-annex'")) =
      .error (.notAGitRepoError ("Path '" ++ "/repo" ++ "' does not exist.")) ∧
    emptyBatch.processGet
        (.error (.fileNotFoundError "No such file or directory: 'git-annex'")) =
      .error (.notAGitRepoError ("Path '" ++ "/repo" ++ "' does not exist.")) ∧
    runnerCall "/repo"
        (.error (.calledProcessError 1 "" "git-annex: Not in a git repository")) =
      .error (.notAGitRepoError
        ("Path '" ++ "/repo" ++ "' is not in a git repository.")) ∧
    runnerCall "/repo" (.error (.timeoutError "t")) =
      .error (.timeoutError "t") := by
  obtain ⟨h1, -, h3, -, -, h6, -⟩ :=
    notagitrepo_classification "/repo" emptyBatch rfl rfl
  obtain ⟨h1a, h1b⟩ :=
    h1 "No such file or directory: 'git-annex'" (by decide)
  refine ⟨h1a, h1b, ?_, ?_⟩
  · exact h3 1 "" "git-annex: Not in a git repository" (by decide)
  · exact (h6 (.timeoutError "t") (fun s h => PyErr.noConfusion h)
      (fun rc out err h => PyErr.noConfusion h)).1

/-- Claim C7.  A call of the git-annex init runner with a version argument
that git-annex rejects (stderr showing the invalid `--version` option
message, and not the not-a-git-repository message, which takes precedence
in the inherited classification) is re-raised as the distinguished
invalid-version error — Python's `ValueError`, the spec's
`InvalidVersionError` — whose message carries the invalid version, and
which is a different exception from the generic `CalledProcessError`. -/
theorem init_runner_invalid_version (wd v out : String) (rc : Int)
    (err : String) (hv : pyIn "option --version:" err = true)
    (hnr : pyIn "git-annex: Not in a git repository" err = false) :
    initRunnerCall wd (some v) (.error (.calledProcessError rc out err)) =
      .error (.valueError
        ("Repository version '" ++ v ++ "' is invalid.")) ∧
    pyIn v ("Repository version '" ++ v ++ "' is invalid.") = true ∧
    (∀ rc2 out2 err2,
      (PyErr.valueError ("Repository version '" ++ v ++ "' is invalid.")) ≠
        .calledProcessError rc2 out2 err2) := by
  refine ⟨?_, ?_, ?_⟩
  · unfold initRunnerCall runnerCall
    simp [hv, hnr, formatVersion]
  · unfold pyIn
    rw [decide_eq_true_eq]
    refine ⟨"Repository version '".data, "' is invalid.".data, ?_⟩
    simp [String.data_append]
  · intro rc2 out2 err2 h
    exact PyErr.noConfusion h

set_option maxRecDepth 8000 in
/-- Witness for claim C7 at a concrete rejected version. -/
theorem init_runner_invalid_version_witness :
    initRunnerCall "/repo" (some "99")
        (.error (.calledProcessError 1 ""
          "git-annex: option --version: Repository version 99 is not supported")) =
      .error (.valueError
        ("Repository version '" ++ "99" ++ "' is invalid.")) ∧
    pyIn "99" ("Repository version '" ++ "99" ++ "' is invalid.") = true :=
  ⟨(init_runner_invalid_version "/repo" "99" "" 1
      "git-annex: option --version: Repository version 99 is not supported"
      (by decide) (by decide)).1,
    (init_runner_invalid_version "/repo" "99" "" 1
      "git-annex: option --version: Repository version 99 is not supported"
      (by decide) (by decide)).2.1⟩

/-- A fields dict containing a non-set value makes the conversion loop of
`update` raise `TypeError` (at its first non-set entry). -/
theorem convertFields_mem_nonset (field : String) (v : PyValue)
    (hv : v.isSet = false) :
    ∀ fields : List (String × PyValue), (field, v) ∈ fields →
      ∃ m, convertFields fields = .error (.typeError m) := by
  intro fields
  induction fields with
  | nil => intro h; exact absurd h (List.not_mem_nil _)
  | cons p rest ih =>
      intro h
      obtain ⟨f, w⟩ := p
      rcases List.mem_cons.mp h with heq | hmem
      · rw [Prod.mk.injEq] at heq
        obtain ⟨h1, h2⟩ := heq
        subst h1
        subst h2
        cases v with
        | pyset e => simp [PyValue.isSet] at hv
        | pylist e => exact ⟨_, rfl⟩
        | pystr s => exact ⟨_, rfl⟩
        | pynone => exact ⟨_, rfl⟩
      · obtain ⟨m, hm⟩ := ih hmem
        cases w with
        | pyset e =>
            refine ⟨m, ?_⟩
            have hu : convertFields ((f, PyValue.pyset e) :: rest) =
                (convertFields rest).map (fun r => (f, e) :: r) := rfl
            rw [hu, hm]
            rfl
        | pylist e => exact ⟨_, rfl⟩
        | pystr s => exact ⟨_, rfl⟩
        | pynone => exact ⟨_, rfl⟩

/-- Claim C9.  Assigning a non-set value to a metadata field through
`__setitem__` raises `TypeError` with no request sent and the cached
state unchanged; likewise, `update` on any fields dict containing that
non-set value raises `TypeError` (at its first non-set entry) with the
state unchanged, before anything is sent. -/
theorem metadata_nonset_typeerror (st : AnnexedFileMetadata)
    (responder : MetaQuery → List (String × List String))
    (field : String) (v : PyValue) (hv : v.isSet = false) :
    st.setitem responder field v =
      (.error (.typeError
        ("Field '" ++ field ++ "' value '" ++ v.show ++ "' must be a set.")),
        st) ∧
    (∀ fields, (field, v) ∈ fields →
      ∃ m, st.update responder fields = (.error (.typeError m), st)) := by
  constructor
  · cases v with
    | pyset e => simp [PyValue.isSet] at hv
    | pylist e => rfl
    | pystr s => rfl
    | pynone => rfl
  · intro fields hmem
    obtain ⟨m, hm⟩ := convertFields_mem_nonset field v hv fields hmem
    exact ⟨m, by simp [AnnexedFileMetadata.update, hm]⟩

/-- Witness for claim C9 at a concrete state, field and string value. -/
theorem metadata_nonset_typeerror_witness :
    AnnexedFileMetadata.setitem ⟨"KEY", none, []⟩ (fun _ => []) "author"
        (.pystr "x") =
      (.error (.typeError
        ("Field '" ++ "author" ++ "' value '" ++
          (PyValue.pystr "x").show ++ "' must be a set.")),
        (⟨"KEY", none, []⟩ : AnnexedFileMetadata)) ∧
    (∃ m, AnnexedFileMetadata.update ⟨"KEY", none, []⟩ (fun _ => [])
        [("author", .pystr "x")] =
      (.error (.typeError m), (⟨"KEY", none, []⟩ : AnnexedFileMetadata))) :=
  have h := metadata_nonset_typeerror ⟨"KEY", none, []⟩ (fun _ => [])
    "author" (.pystr "x") (by decide)
  ⟨h.1, h.2 [("author", .pystr "x")] (by simp)⟩

end GitAnnexAdapter
